import Mathlib

/-!
Verification of the otmb-sec-converter pipeline (sec_to_otbm.py,
otbm_to_sec.py, generate_rme_data.py) against its specification.

Byte streams are modelled as `List Int` (Python ints flowing into a
`bytearray`); all writer primitives are shallow embeddings of the
corresponding Python functions, translated line by line from the source.
-/

set_option maxRecDepth 100000

namespace OtbmSec

/-- NODE_ESC = 0xFD (sec_to_otbm.py line 72). -/
def NODE_ESC : Int := 253
/-- NODE_INIT = 0xFE (sec_to_otbm.py line 73). -/
def NODE_INIT : Int := 254
/-- NODE_TERM = 0xFF (sec_to_otbm.py line 74). -/
def NODE_TERM : Int := 255

/-- `OTBMWriter.write_byte` (sec_to_otbm.py lines 171-175 and
generate_rme_data.py lines 74-78): append 0xFD before any of
{0xFD, 0xFE, 0xFF}, then the byte itself.  Modelled as the chunk of bytes
appended by one call. -/
def write_byte (b : Int) : List Int :=
  if b = NODE_ESC ∨ b = NODE_INIT ∨ b = NODE_TERM then [NODE_ESC, b] else [b]

/-- `OTBMWriter.write_uint16` (sec_to_otbm.py lines 177-180): little-endian,
each byte through `write_byte`.  Python `val & 0xFF` = `emod 256`,
`(val >> 8) & 0xFF` = `fdiv` then `emod` (Python `>>` is a floor shift). -/
def write_uint16 (v : Int) : List Int :=
  write_byte (v.emod 256) ++ write_byte ((v.fdiv 256).emod 256)

/-- `OTBMWriter.write_uint32` (sec_to_otbm.py lines 182-187). -/
def write_uint32 (v : Int) : List Int :=
  write_byte (v.emod 256) ++ write_byte ((v.fdiv 256).emod 256) ++
  write_byte ((v.fdiv 65536).emod 256) ++ write_byte ((v.fdiv 16777216).emod 256)

/-- `OTBMWriter.write_string` (sec_to_otbm.py lines 189-194): u16 length
prefix, then each byte of the latin-1 encoding through `write_byte`.
The string is modelled as its list of latin-1 byte values. -/
def write_string (s : List Int) : List Int :=
  write_uint16 s.length ++ s.flatMap write_byte

/-- `OTBMWriter.start_node` (sec_to_otbm.py lines 196-199): raw 0xFE, then
the tag byte through `write_byte`. -/
def start_node (t : Int) : List Int :=
  NODE_INIT :: write_byte t

/-- `OTBMWriter.end_node` (sec_to_otbm.py lines 201-203): raw 0xFF. -/
def end_node : List Int := [NODE_TERM]

/-- Count of 0xFE and 0xFF markers at non-escaped positions of a byte
stream: scanning left to right, a 0xFD consumes the following byte
(escaped), 0xFE bumps the first count, 0xFF the second. -/
def markCounts : List Int → Nat × Nat
  | [] => (0, 0)
  | b :: rest =>
    if b = NODE_ESC then
      match rest with
      | [] => (0, 0)
      | _ :: rest2 => markCounts rest2
    else
      let p := markCounts rest
      ((if b = NODE_INIT then p.1 + 1 else p.1),
       (if b = NODE_TERM then p.2 + 1 else p.2))

theorem markCounts_escaped (b : Int) (rest : List Int) :
    markCounts (NODE_ESC :: b :: rest) = markCounts rest := by
  rw [markCounts.eq_def]
  norm_num

theorem markCounts_plain (b : Int) (rest : List Int)
    (h : ¬(b = NODE_ESC ∨ b = NODE_INIT ∨ b = NODE_TERM)) :
    markCounts (b :: rest) = markCounts rest := by
  push_neg at h
  obtain ⟨h1, h2, h3⟩ := h
  rw [markCounts.eq_def]
  simp [h1, h2, h3]

theorem markCounts_write_byte (b : Int) (rest : List Int) :
    markCounts (write_byte b ++ rest) = markCounts rest := by
  by_cases h : b = NODE_ESC ∨ b = NODE_INIT ∨ b = NODE_TERM
  · simp only [write_byte, if_pos h, List.cons_append, List.nil_append]
    exact markCounts_escaped b rest
  · simp only [write_byte, if_neg h, List.cons_append, List.nil_append]
    exact markCounts_plain b rest h

theorem markCounts_init (rest : List Int) :
    markCounts (NODE_INIT :: rest) =
      ((markCounts rest).1 + 1, (markCounts rest).2) := by
  rw [markCounts.eq_def]
  norm_num [NODE_INIT, NODE_ESC, NODE_TERM]

theorem markCounts_term (rest : List Int) :
    markCounts (NODE_TERM :: rest) =
      ((markCounts rest).1, (markCounts rest).2 + 1) := by
  rw [markCounts.eq_def]
  norm_num [NODE_TERM, NODE_ESC, NODE_INIT]

/-- A chunk all of whose bytes are below 0xFD contributes nothing to the
marker counts. -/
theorem markCounts_raw (raw rest : List Int) (h : ∀ b ∈ raw, b < NODE_ESC) :
    markCounts (raw ++ rest) = markCounts rest := by
  induction raw with
  | nil => simp
  | cons b t ih =>
    have hb := h b (by simp)
    have hne : ¬(b = NODE_ESC ∨ b = NODE_INIT ∨ b = NODE_TERM) := by
      rintro (rfl | rfl | rfl) <;> simp [NODE_ESC, NODE_INIT, NODE_TERM] at hb
    rw [List.cons_append, markCounts_plain b _ hne]
    exact ih fun x hx => h x (by simp [hx])

theorem markCounts_write_uint16 (v : Int) (rest : List Int) :
    markCounts (write_uint16 v ++ rest) = markCounts rest := by
  simp only [write_uint16, List.append_assoc]
  rw [markCounts_write_byte, markCounts_write_byte]

theorem markCounts_write_uint32 (v : Int) (rest : List Int) :
    markCounts (write_uint32 v ++ rest) = markCounts rest := by
  simp only [write_uint32, List.append_assoc]
  rw [markCounts_write_byte, markCounts_write_byte, markCounts_write_byte,
    markCounts_write_byte]

theorem markCounts_flatMap_write_byte (s rest : List Int) :
    markCounts (s.flatMap write_byte ++ rest) = markCounts rest := by
  induction s with
  | nil => simp
  | cons b t ih =>
    rw [List.flatMap_cons, List.append_assoc, markCounts_write_byte, ih]

theorem markCounts_write_string (s rest : List Int) :
    markCounts (write_string s ++ rest) = markCounts rest := by
  simp only [write_string, List.append_assoc]
  rw [markCounts_write_uint16, markCounts_flatMap_write_byte]

theorem markCounts_start_node (t : Int) (rest : List Int) :
    markCounts (start_node t ++ rest) =
      ((markCounts rest).1 + 1, (markCounts rest).2) := by
  simp only [start_node, List.cons_append]
  rw [markCounts_init]
  have := markCounts_write_byte t rest
  simp [this]

theorem markCounts_end_node (rest : List Int) :
    markCounts (end_node ++ rest) =
      ((markCounts rest).1, (markCounts rest).2 + 1) := by
  simp only [end_node, List.cons_append, List.nil_append]
  exact markCounts_term rest

/-! ### Escape encoding and decoding (C2) -/

/-- `escape_otb_data` (generate_rme_data.py lines 191-198): for each byte,
append 0xFD first when the byte is in {0xFD, 0xFE, 0xFF}, then the byte. -/
def escape_otb_data : List Int → List Int
  | [] => []
  | b :: rest =>
    (if b = 253 ∨ b = 254 ∨ b = 255 then [NODE_ESC, b] else [b]) ++
      escape_otb_data rest

/-- The per-byte escape rule of the writer, applied to a whole sequence
(the loop `for b in encoded: self.write_byte(b)` of `write_string`, and
exactly what `escape_otb_data` computes). -/
def encodeBytes (B : List Int) : List Int := B.flatMap write_byte

theorem escape_otb_data_eq_encodeBytes (B : List Int) :
    escape_otb_data B = encodeBytes B := by
  induction B with
  | nil => rfl
  | cons b t ih =>
    show (if _ then _ else _) ++ escape_otb_data t = write_byte b ++ encodeBytes t
    rw [ih]
    rfl

/-- `read_byte_escape` (otbm_to_sec.py lines 21-30): read the byte at `pos`;
if it is 0xFD and another byte follows, return that following byte instead
(consuming both); at end of stream return `none`. -/
def read_byte_escape (data : List Int) (pos : Nat) : Option Int × Nat :=
  if pos ≥ data.length then (none, pos)
  else if data.getD pos 0 = NODE_ESC ∧ pos + 1 < data.length then
    (some (data.getD (pos + 1) 0), pos + 2)
  else (some (data.getD pos 0), pos + 1)

/-- Decoding a whole stream: iterate `read_byte_escape` from `pos` until it
returns `none` (see `decodeFrom_step`). -/
def decodeFrom (data : List Int) (pos : Nat) : List Int :=
  if pos < data.length then
    if data.getD pos 0 = NODE_ESC ∧ pos + 1 < data.length then
      data.getD (pos + 1) 0 :: decodeFrom data (pos + 2)
    else
      data.getD pos 0 :: decodeFrom data (pos + 1)
  else []
termination_by data.length - pos
decreasing_by all_goals omega

/-- `decodeFrom` performs one `read_byte_escape` step and recurses at the
returned position. -/
theorem decodeFrom_step (data : List Int) (pos : Nat) :
    decodeFrom data pos =
      match read_byte_escape data pos with
      | (none, _) => []
      | (some v, p2) => v :: decodeFrom data p2 := by
  by_cases h : pos < data.length
  · have hn : ¬ pos ≥ data.length := not_le.mpr h
    rw [decodeFrom, read_byte_escape, if_pos h, if_neg hn]
    by_cases h2 : data.getD pos 0 = NODE_ESC ∧ pos + 1 < data.length
    · rw [if_pos h2, if_pos h2]
    · rw [if_neg h2, if_neg h2]
  · rw [decodeFrom, read_byte_escape, if_neg h, if_pos (le_of_not_lt h)]

/-- Structural form of the decoder, on the remaining suffix of the stream. -/
def decodeList : List Int → List Int
  | [] => []
  | [b] => [b]
  | b :: c :: rest =>
    if b = NODE_ESC then c :: decodeList rest
    else b :: decodeList (c :: rest)

theorem decodeFrom_eq_decodeList (data : List Int) (pos : Nat) :
    decodeFrom data pos = decodeList (data.drop pos) := by
  have main : ∀ k pos, data.length - pos ≤ k →
      decodeFrom data pos = decodeList (data.drop pos) := by
    intro k
    induction k with
    | zero =>
      intro pos hk
      have hge : ¬ pos < data.length := by omega
      rw [decodeFrom, if_neg hge, List.drop_eq_nil_of_le (by omega)]
      rfl
    | succ k ih =>
      intro pos hk
      by_cases h : pos < data.length
      · have hdrop : data.drop pos = data[pos] :: data.drop (pos + 1) :=
          List.drop_eq_getElem_cons h
        have hgetD : data.getD pos 0 = data[pos] := List.getD_eq_getElem data 0 h
        rw [decodeFrom, if_pos h, hdrop]
        by_cases h2 : data.getD pos 0 = NODE_ESC ∧ pos + 1 < data.length
        · have hdrop2 : data.drop (pos + 1) = data[pos + 1] :: data.drop (pos + 2) :=
            List.drop_eq_getElem_cons h2.2
          have hgetD2 : data.getD (pos + 1) 0 = data[pos + 1] :=
            List.getD_eq_getElem data 0 h2.2
          rw [if_pos h2, hdrop2, decodeList, if_pos (hgetD ▸ h2.1)]
          rw [ih (pos + 2) (by omega), hgetD2]
        · rw [if_neg h2, ih (pos + 1) (by omega)]
          rcases Decidable.em (data.getD pos 0 = NODE_ESC) with hesc | hesc
          · have hlen : ¬ pos + 1 < data.length := fun hc => h2 ⟨hesc, hc⟩
            have hnil : data.drop (pos + 1) = [] :=
              List.drop_eq_nil_of_le (by omega)
            rw [hnil, hgetD]
            rfl
          · cases hdd : data.drop (pos + 1) with
            | nil =>
              rw [hgetD]
              rfl
            | cons c r =>
              rw [decodeList, if_neg (hgetD ▸ hesc), hgetD]
      · rw [decodeFrom, if_neg h, List.drop_eq_nil_of_le (by omega)]
        rfl
  exact main (data.length - pos) pos le_rfl

theorem decodeList_encodeBytes (B : List Int) :
    decodeList (encodeBytes B) = B := by
  induction B with
  | nil => rfl
  | cons b t ih =>
    by_cases h : b = NODE_ESC ∨ b = NODE_INIT ∨ b = NODE_TERM
    · have henc : encodeBytes (b :: t) = NODE_ESC :: b :: encodeBytes t := by
        simp [encodeBytes, write_byte, h]
      rw [henc, decodeList, if_pos rfl, ih]
    · have henc : encodeBytes (b :: t) = b :: encodeBytes t := by
        simp [encodeBytes, write_byte, h]
      have hb : b ≠ NODE_ESC := fun hc => h (Or.inl hc)
      cases het : encodeBytes t with
      | nil =>
        rw [henc, het, decodeList]
        rw [het] at ih
        rw [← ih]
        rfl
      | cons c r =>
        rw [henc, het, decodeList, if_neg hb, ← het, ih]

/-- **C2.** For every byte sequence `B`, decoding (with the reader's escape
rule `read_byte_escape`, iterated by `decodeFrom`) the escape-encoded form
of `B` (the writer's per-byte rule `write_byte` / `escape_otb_data`) yields
`B` again; every byte of `B` in {0xFD, 0xFE, 0xFF} appears in the encoded
stream immediately preceded by a 0xFD escape byte — as an infix, and
positionally at each occurrence. -/
theorem escape_roundtrip_spec :
    (∀ B : List Int, (∀ b ∈ B, 0 ≤ b ∧ b < 256) →
        decodeFrom (encodeBytes B) 0 = B) ∧
    (∀ B : List Int, ∀ b ∈ B,
        (b = NODE_ESC ∨ b = NODE_INIT ∨ b = NODE_TERM) →
        [NODE_ESC, b].IsInfix (encodeBytes B)) ∧
    (∀ (s t : List Int) (b : Int),
        (b = NODE_ESC ∨ b = NODE_INIT ∨ b = NODE_TERM) →
        encodeBytes (s ++ b :: t) =
          encodeBytes s ++ [NODE_ESC, b] ++ encodeBytes t) := by
  refine ⟨?_, ?_, ?_⟩
  · intro B _
    rw [decodeFrom_eq_decodeList, List.drop_zero, decodeList_encodeBytes]
  · intro B b hmem hsp
    obtain ⟨s, t, rfl⟩ := List.append_of_mem hmem
    refine ⟨encodeBytes s, encodeBytes t, ?_⟩
    have hmid : encodeBytes (s ++ b :: t) =
        encodeBytes s ++ (NODE_ESC :: b :: encodeBytes t) := by
      simp [encodeBytes, write_byte, hsp]
    rw [hmid, List.append_assoc]
    rfl
  · intro s t b hsp
    simp [encodeBytes, write_byte, hsp]

/-- Witness for C2 at a concrete byte sequence containing all three special
bytes. -/
theorem escape_roundtrip_spec_witness :
    decodeFrom (encodeBytes [0, 253, 254, 255, 97]) 0 = [0, 253, 254, 255, 97] ∧
    [NODE_ESC, 254].IsInfix (encodeBytes [0, 253, 254, 255, 97]) ∧
    encodeBytes ([0] ++ 254 :: [97]) =
      encodeBytes [0] ++ [NODE_ESC, 254] ++ encodeBytes [97] :=
  ⟨escape_roundtrip_spec.1 _ (by decide),
   escape_roundtrip_spec.2.1 _ 254 (by decide) (by decide),
   escape_roundtrip_spec.2.2 [0] [97] 254 (by decide)⟩

/-! ### OTB item database writer (generate_rme_data.py, `generate_items_otb`) -/

/-- ITEM_ATTR_* constants (generate_rme_data.py lines 21-26). -/
def ITEM_ATTR_SERVERID : Int := 16
def ITEM_ATTR_CLIENTID : Int := 17
def ITEM_ATTR_NAME : Int := 18
def ITEM_ATTR_SPEED : Int := 20
def ITEM_ATTR_MAXITEMS : Int := 22

/-- FLAG_STACKABLE = 1 << 7 (generate_rme_data.py line 29). -/
def FLAG_STACKABLE : Int := 128

/-- ITEM_GROUP_* constants (generate_rme_data.py lines 31-45). -/
def ITEM_GROUP_NONE : Int := 0
def ITEM_GROUP_GROUND : Int := 1
def ITEM_GROUP_CONTAINER : Int := 2
def ITEM_GROUP_RUNE : Int := 6
def ITEM_GROUP_SPLASH : Int := 11

/-- One parsed record of `parse_objects_srv` (generate_rme_data.py lines
175-181); the name is kept as its latin-1 byte list. -/
structure SrvItem where
  type_id : Int
  name : List Int
  flags : List String
  disguise_target : Option Int
  capacity : Option Int

/-- Item-group selection (generate_rme_data.py lines 232-243): Bank, then
Container/Chest, then Splash, then Rune/MagicEffect, else None. -/
def itemGroup (flags : List String) : Int :=
  if "Bank" ∈ flags then ITEM_GROUP_GROUND
  else if "Container" ∈ flags ∨ "Chest" ∈ flags then ITEM_GROUP_CONTAINER
  else if "Splash" ∈ flags then ITEM_GROUP_SPLASH
  else if "Rune" ∈ flags ∨ "MagicEffect" ∈ flags then ITEM_GROUP_RUNE
  else ITEM_GROUP_NONE

/-- OTB flags word (generate_rme_data.py line 249). -/
def otbFlags (flags : List String) : Int :=
  if "Cumulative" ∈ flags then FLAG_STACKABLE else 0

/-- `struct.pack('<H', v)`: the two little-endian bytes of a u16. -/
def pack16 (v : Int) : List Int := [v.emod 256, (v.fdiv 256).emod 256]

/-- `struct.pack('<I', v)`: the four little-endian bytes of a u32. -/
def pack32 (v : Int) : List Int :=
  [v.emod 256, (v.fdiv 256).emod 256, (v.fdiv 65536).emod 256,
   (v.fdiv 16777216).emod 256]

/-- MaxItems (volume) value (generate_rme_data.py lines 277-281): Capacity
only when the flags include Container, default 8, clamped to 1..0xFFFF. -/
def otbVolume (it : SrvItem) : Int :=
  max 1 (min 65535 ((if "Container" ∈ it.flags then it.capacity else none).getD 8))

/-- ServerID attribute block (generate_rme_data.py lines 253-255). -/
def serverIdAttr (it : SrvItem) : List Int :=
  [ITEM_ATTR_SERVERID] ++ pack16 2 ++ pack16 it.type_id

/-- ClientID attribute block (generate_rme_data.py lines 257-261):
DisguiseTarget when set, else the type id. -/
def clientIdAttr (it : SrvItem) : List Int :=
  [ITEM_ATTR_CLIENTID] ++ pack16 2 ++ pack16 (it.disguise_target.getD it.type_id)

/-- Name attribute block (generate_rme_data.py lines 263-267): tag 0x12,
u16 length of the raw (unescaped) name bytes, then the raw name bytes. -/
def nameAttr (it : SrvItem) : List Int :=
  [ITEM_ATTR_NAME] ++ pack16 it.name.length ++ it.name

/-- Speed attribute block for ground items (lines 270-273). -/
def speedAttr : List Int := [ITEM_ATTR_SPEED] ++ pack16 2 ++ pack16 150

/-- MaxItems attribute block for containers (lines 282-284). -/
def maxItemsAttr (it : SrvItem) : List Int :=
  [ITEM_ATTR_MAXITEMS] ++ pack16 2 ++ pack16 (otbVolume it)

/-- The unescaped body (`item_data`) of one OTB item node
(generate_rme_data.py lines 245-284). -/
def buildItemData (it : SrvItem) : List Int :=
  pack32 (otbFlags it.flags) ++ serverIdAttr it ++ clientIdAttr it ++
  nameAttr it ++
  (if itemGroup it.flags = ITEM_GROUP_GROUND then speedAttr else []) ++
  (if itemGroup it.flags = ITEM_GROUP_CONTAINER then maxItemsAttr it else [])

/-- One full OTB item node as emitted (lines 286-291): raw 0xFE, raw group
byte, escaped body, raw 0xFF; items with empty names are skipped
(lines 228-230). -/
def itemNodeBytes (it : SrvItem) : List Int :=
  if it.name = [] then []
  else [NODE_INIT, itemGroup it.flags] ++ escape_otb_data (buildItemData it) ++
    [NODE_TERM]

/-- The fixed root preamble of items.otb (generate_rme_data.py lines
203-221): null magic, raw 0xFE, root tag/type bytes, flags, length 140, the
three version u32s and the 128-byte NUL-padded identifier. -/
def otbPreambleTail : List Int :=
  [0, 0] ++ [0, 0, 0, 1] ++ [140, 0] ++
  pack32 1 ++ pack32 100 ++ pack32 1 ++
  ([79, 84, 66, 32, 49, 46, 48, 46, 48, 45, 55, 46, 55, 48, 45, 99, 105,
    112, 115, 111, 102, 116, 0] ++ List.replicate 105 0)

def otbPreamble : List Int := [0, 0, 0, 0] ++ [NODE_INIT] ++ otbPreambleTail

/-- `generate_items_otb` (generate_rme_data.py lines 201-299): preamble,
one node per item (in ascending `type_id` order, which is the order of the
input list here), and the closing 0xFF of the root node. -/
def generate_items_otb (items : List SrvItem) : List Int :=
  otbPreamble ++ items.flatMap itemNodeBytes ++ [NODE_TERM]

theorem escape_otb_data_append (a b : List Int) :
    escape_otb_data (a ++ b) = escape_otb_data a ++ escape_otb_data b := by
  induction a with
  | nil => rfl
  | cons x t ih =>
    show (if _ then _ else _) ++ escape_otb_data (t ++ b) = _
    rw [ih]
    simp [escape_otb_data]

theorem markCounts_escape_otb_data (d rest : List Int) :
    markCounts (escape_otb_data d ++ rest) = markCounts rest := by
  induction d with
  | nil => rfl
  | cons b t ih =>
    show markCounts (((if _ then _ else _) ++ escape_otb_data t) ++ rest) = _
    by_cases h : b = 253 ∨ b = 254 ∨ b = 255
    · rw [if_pos h, List.append_assoc, List.cons_append, List.cons_append,
        List.nil_append, markCounts_escaped, ih]
    · rw [if_neg h, List.append_assoc, List.cons_append, List.nil_append,
        markCounts_plain b _ (by simpa [NODE_ESC, NODE_INIT, NODE_TERM] using h),
        ih]

theorem itemGroup_lt (flags : List String) : itemGroup flags < NODE_ESC := by
  unfold itemGroup
  split <;> try norm_num [ITEM_GROUP_GROUND, NODE_ESC]
  split <;> try norm_num [ITEM_GROUP_CONTAINER, NODE_ESC]
  split <;> try norm_num [ITEM_GROUP_SPLASH, NODE_ESC]
  split <;> norm_num [ITEM_GROUP_RUNE, ITEM_GROUP_NONE, NODE_ESC]

theorem markCounts_itemNodeBytes (it : SrvItem) (rest : List Int) :
    markCounts (itemNodeBytes it ++ rest) =
      if it.name = [] then markCounts rest
      else ((markCounts rest).1 + 1, (markCounts rest).2 + 1) := by
  by_cases h : it.name = []
  · simp [itemNodeBytes, h]
  · rw [if_neg h]
    have hgrp : ¬(itemGroup it.flags = NODE_ESC ∨ itemGroup it.flags = NODE_INIT ∨
        itemGroup it.flags = NODE_TERM) := by
      have := itemGroup_lt it.flags
      rintro (hc | hc | hc) <;> rw [hc] at this <;>
        norm_num [NODE_ESC, NODE_INIT, NODE_TERM] at this
    simp only [itemNodeBytes, if_neg h, List.append_assoc, List.cons_append,
      List.nil_append]
    rw [markCounts_init, markCounts_plain _ _ hgrp, markCounts_escape_otb_data]
    rw [show (NODE_TERM :: rest) = end_node ++ rest from rfl, markCounts_end_node]

theorem markCounts_otbPreamble (rest : List Int) :
    markCounts (otbPreamble ++ rest) =
      ((markCounts rest).1 + 1, (markCounts rest).2) := by
  have htail : ∀ b ∈ otbPreambleTail, b < NODE_ESC := by decide
  rw [otbPreamble, List.append_assoc, List.append_assoc,
    markCounts_raw [0, 0, 0, 0] _ (by norm_num [NODE_ESC]),
    List.cons_append, List.nil_append, markCounts_init, markCounts_raw _ _ htail]

/-- Node balance of the emitted OTB item database: equal numbers of
non-escaped 0xFE and 0xFF markers, for every catalog. -/
theorem otb_markCounts_balanced (items : List SrvItem) :
    (markCounts (generate_items_otb items)).1 =
      (markCounts (generate_items_otb items)).2 := by
  have hitems : ∀ (l : List SrvItem) (rest : List Int),
      (markCounts (l.flatMap itemNodeBytes ++ rest)).1 + (markCounts rest).2 =
        (markCounts (l.flatMap itemNodeBytes ++ rest)).2 + (markCounts rest).1 := by
    intro l
    induction l with
    | nil => intro rest; simp; omega
    | cons it t ih =>
      intro rest
      rw [List.flatMap_cons, List.append_assoc, markCounts_itemNodeBytes]
      by_cases h : it.name = []
      · rw [if_pos h]; exact ih rest
      · rw [if_neg h]
        have := ih rest
        omega
  rw [generate_items_otb, List.append_assoc, markCounts_otbPreamble]
  have := hitems items [NODE_TERM]
  have hterm : markCounts [NODE_TERM] = (0, 1) := by decide
  rw [hterm] at this
  simp only [hterm] at *
  omega

/-- The item of end-to-end scenario 2: name is the six raw bytes
0xFD 't' 'e' 's' 't' 0xFE, no flags, no disguise, no capacity. -/
def escNameItem : SrvItem :=
  ⟨100, [253, 116, 101, 115, 116, 254], [], none, none⟩

/-- **C3.** For an item named `"\xFDtest\xFE"`, the emitted Name attribute
body is exactly `0x12 0x06 0x00 0xFD 0xFD t e s t 0xFD 0xFE`: the u16
length field holds 6 (the unescaped byte count) while each special name
byte is preceded by a 0xFD escape; the full emitted node contains that
body verbatim. -/
theorem otb_name_attr_escape_heavy :
    nameAttr escNameItem = [18, 6, 0, 253, 116, 101, 115, 116, 254] ∧
    escape_otb_data (nameAttr escNameItem) =
      [18, 6, 0, 253, 253, 116, 101, 115, 116, 253, 254] ∧
    itemNodeBytes escNameItem =
      [254, 0, 0, 0, 0, 0, 16, 2, 0, 100, 0, 17, 2, 0, 100, 0,
       18, 6, 0, 253, 253, 116, 101, 115, 116, 253, 254, 255] := by
  refine ⟨?_, ?_, ?_⟩ <;> decide

/-- An item whose flags contain only `Chest` and whose Capacity parses to 5
(generate_rme_data.py line 278 ignores Capacity for Chest-only items). -/
def chestCapItem : SrvItem :=
  ⟨200, [99, 104, 101, 115, 116], ["Chest"], none, some 5⟩

/-- **C7 counterexample.** A Chest-flagged item of group Container with
parsed Capacity 5 is emitted with MaxItems value 8, not its Capacity: the
claim "the value equals the item's parsed Capacity when Capacity is set"
fails on this item. -/
theorem otb_maxitems_chest_counterexample :
    itemGroup chestCapItem.flags = ITEM_GROUP_CONTAINER ∧
    chestCapItem.capacity = some 5 ∧
    otbVolume chestCapItem = 8 ∧
    maxItemsAttr chestCapItem = [22, 2, 0, 8, 0] ∧
    otbVolume chestCapItem ≠ 5 := by
  refine ⟨?_, ?_, ?_, ?_, ?_⟩ <;> decide

/-- **C7 (amended).** For every emitted OTB item node of group Container,
the MaxItems attribute carries a u16 in 1..65535; its value equals the
parsed Capacity (clamped to 1..65535) only when the symbolic flags include
`Container` and Capacity is set, and is 8 otherwise (Chest-only containers
and containers without Capacity); the node body ends with exactly this
attribute block. -/
theorem otb_maxitems_amended (it : SrvItem)
    (h : itemGroup it.flags = ITEM_GROUP_CONTAINER) (hname : it.name ≠ []) :
    (1 ≤ otbVolume it ∧ otbVolume it ≤ 65535) ∧
    (∀ c : Int, "Container" ∈ it.flags → it.capacity = some c →
      otbVolume it = max 1 (min 65535 c)) ∧
    (("Container" ∉ it.flags ∨ it.capacity = none) → otbVolume it = 8) ∧
    itemNodeBytes it =
      [NODE_INIT, ITEM_GROUP_CONTAINER] ++
        escape_otb_data (pack32 (otbFlags it.flags) ++ serverIdAttr it ++
          clientIdAttr it ++ nameAttr it ++ maxItemsAttr it) ++ [NODE_TERM] := by
  have hne : itemGroup it.flags ≠ ITEM_GROUP_GROUND := by
    rw [h]
    norm_num [ITEM_GROUP_CONTAINER, ITEM_GROUP_GROUND]
  refine ⟨⟨le_max_left _ _, ?_⟩, ?_, ?_, ?_⟩
  · exact max_le (by norm_num) (min_le_left _ _)
  · intro c hcont hcap
    simp [otbVolume, hcont, hcap]
  · rintro (hcont | hcap)
    · simp [otbVolume, hcont]
    · by_cases hcont : "Container" ∈ it.flags <;> simp [otbVolume, hcont, hcap]
  · rw [itemNodeBytes, if_neg hname, buildItemData, if_neg hne, if_pos h, h]
    simp

/-! ### Tile-stack normalizer (sec_to_otbm.py lines 645-714, 946-951) -/

/-- STACK_PRIORITY_LOW = 5 (sec_to_otbm.py line 652). -/
def STACK_PRIORITY_LOW : Int := 5

/-- Stable insertion of `a` into a key-sorted list: `a` goes before the
first element whose key is not smaller (so equal-key elements keep their
input order).  Together with `isortKey` this is the extensional behaviour
of Python's stable `sorted(items, key=...)`. -/
def insertByKey {α : Type} (k : α → Int) (a : α) : List α → List α
  | [] => [a]
  | b :: t => if k b < k a then b :: insertByKey k a t else a :: b :: t

/-- Stable ascending sort by an integer key (model of Python `sorted`). -/
def isortKey {α : Type} (k : α → Int) : List α → List α
  | [] => []
  | a :: t => insertByKey k a (isortKey k t)

/-! ### OTBM map writer (sec_to_otbm.py, `convert_map_to_otbm`) -/

/-- OTBM node-type constants (sec_to_otbm.py lines 77-95). -/
def OTBM_MAP_HEADER : Int := 0
def OTBM_MAP_DATA : Int := 2
def OTBM_TILE_AREA : Int := 4
def OTBM_TILE : Int := 5
def OTBM_ITEM : Int := 6
def OTBM_TOWNS : Int := 12
def OTBM_TOWN : Int := 13
def OTBM_HOUSETILE : Int := 14

/-- OTBM attribute constants (sec_to_otbm.py lines 98-150). -/
def OTBM_ATTR_DESCRIPTION : Int := 1
def OTBM_ATTR_TILE_FLAGS : Int := 3
def OTBM_ATTR_ACTION_ID : Int := 4
def OTBM_ATTR_UNIQUE_ID : Int := 5
def OTBM_ATTR_TEXT : Int := 6
def OTBM_ATTR_TELE_DEST : Int := 8
def OTBM_ATTR_EXT_SPAWN_FILE : Int := 11
def OTBM_ATTR_EXT_HOUSE_FILE : Int := 13
def OTBM_ATTR_COUNT : Int := 15
def OTBM_ATTR_CHARGES : Int := 22

/-- Server → RME liquid translation table (sec_to_otbm.py lines 116-130). -/
def SERVER_LIQUID_TO_RME : List (Int × Int) :=
  [(0, 0), (1, 1), (2, 15), (3, 3), (4, 19), (5, 2), (6, 4), (7, 11),
   (8, 13), (9, 6), (10, 7), (11, 10), (12, 5)]

/-- `SERVER_LIQUID_TO_RME.get(v, v)`: unknown codes pass through. -/
def liquidToRme (v : Int) : Int := (SERVER_LIQUID_TO_RME.lookup v).getD v

/-- One parsed item instance (the `item_data` dict built by
`_append_item_from_spec`, sec_to_otbm.py lines 432-521). -/
inductive ItemData where
  | mk (id : Int) (liquid_type count actionid uniqueid charges : Option Int)
      (text : Option (List Int)) (teleport_dest : Option (Int × Int × Int))
      (content : List ItemData)

def ItemData.id : ItemData → Int
  | .mk i _ _ _ _ _ _ _ _ => i

def ItemData.liquid_type : ItemData → Option Int
  | .mk _ l _ _ _ _ _ _ _ => l

def ItemData.count : ItemData → Option Int
  | .mk _ _ c _ _ _ _ _ _ => c

def ItemData.actionid : ItemData → Option Int
  | .mk _ _ _ a _ _ _ _ _ => a

def ItemData.uniqueid : ItemData → Option Int
  | .mk _ _ _ _ u _ _ _ _ => u

def ItemData.charges : ItemData → Option Int
  | .mk _ _ _ _ _ c _ _ _ => c

def ItemData.text : ItemData → Option (List Int)
  | .mk _ _ _ _ _ _ t _ _ => t

def ItemData.teleport_dest : ItemData → Option (Int × Int × Int)
  | .mk _ _ _ _ _ _ _ d _ => d

def ItemData.content : ItemData → List ItemData
  | .mk _ _ _ _ _ _ _ _ c => c

/-- `type_to_priority.get(item.get('id'), STACK_PRIORITY_LOW)`
(sec_to_otbm.py lines 696-697): ids absent from the table get Low = 5. -/
def stackPriorityOf (tp : List (Int × Int)) (it : ItemData) : Int :=
  (tp.lookup it.id).getD STACK_PRIORITY_LOW

/-- `_sort_tile_items_by_priority` (sec_to_otbm.py lines 692-698): stable
sort by engine stack priority; empty items or empty table returned as-is. -/
def sortTileItemsByPriority (items : List ItemData) (tp : List (Int × Int)) :
    List ItemData :=
  if items.isEmpty ∨ tp = [] then items
  else isortKey (stackPriorityOf tp) items

/-- The per-tile item order written to the map (sec_to_otbm.py lines
946-951): with a (nonempty) priority table, sort then reverse the whole
list; without one, input order. -/
def itemsToWrite (tp : List (Int × Int)) (items : List ItemData) :
    List ItemData :=
  if tp = [] then items else (sortTileItemsByPriority items tp).reverse

mutual

/-- `_write_otbm_item_recursive` (sec_to_otbm.py lines 805-842): one
OTBM_ITEM node: u16 id; Count attribute from liquid (translated) or from
count (clamped to 0..255); ActionID; UniqueID; Charges (clamped to
0..65535); Text (only when non-empty, Python truthiness); TeleportDest
(x, y clamped to 0..65535 and z to 0..15); then the child items. -/
def writeItemRec : ItemData → List Int
  | .mk id liquid count actionid uniqueid charges text tele content =>
    start_node OTBM_ITEM ++ write_uint16 id ++
    (match liquid with
     | some l => write_byte OTBM_ATTR_COUNT ++ write_byte (liquidToRme l)
     | none =>
       match count with
       | some c => write_byte OTBM_ATTR_COUNT ++ write_byte (min 255 (max 0 c))
       | none => []) ++
    (match actionid with
     | some a => write_byte OTBM_ATTR_ACTION_ID ++ write_uint16 a
     | none => []) ++
    (match uniqueid with
     | some u => write_byte OTBM_ATTR_UNIQUE_ID ++ write_uint16 u
     | none => []) ++
    (match charges with
     | some c => write_byte OTBM_ATTR_CHARGES ++ write_uint16 (min 65535 (max 0 c))
     | none => []) ++
    (if text.getD [] ≠ [] then
      write_byte OTBM_ATTR_TEXT ++ write_string (text.getD []) else []) ++
    (match tele with
     | some (tx, ty, tz) =>
       write_byte OTBM_ATTR_TELE_DEST ++ write_uint16 (min 65535 (max 0 tx)) ++
       write_uint16 (min 65535 (max 0 ty)) ++ write_byte (min 15 (max 0 tz))
     | none => []) ++
    writeItemsList content ++ end_node

/-- The item loop `for child in content_list` / `for item_data in
items_to_write` writing consecutive item nodes. -/
def writeItemsList : List ItemData → List Int
  | [] => []
  | it :: t => writeItemRec it ++ writeItemsList t

end

/-- One tile record of the `areas` dict (sec_to_otbm.py lines 903-911). -/
structure TileRecord where
  x : Int
  y : Int
  items : List ItemData
  map_flags : Int
  house_id : Option Int

/-- One tile of a parsed sector file (the 4-tuples of `parse_sec_file`,
sec_to_otbm.py line 610). -/
structure SecTile where
  lx : Int
  ly : Int
  map_flags : Int
  items : List ItemData

/-- One town record (sec_to_otbm.py lines 330-334), name as latin-1 bytes. -/
structure Town where
  id : Int
  name : List Int
  x : Int
  y : Int
  z : Int
  deriving DecidableEq

/-- One tile node (sec_to_otbm.py lines 924-955): skipped when it has no
items; OTBM_HOUSETILE (tag 14) with u32 house id when a house position
matches, else OTBM_TILE (tag 5); TileFlags attribute when flags ≠ 0; then
the normalized item list. -/
def writeTile (tp : List (Int × Int)) (tile : TileRecord) : List Int :=
  if tile.items.isEmpty then []
  else
    (match tile.house_id with
     | some hid =>
       start_node OTBM_HOUSETILE ++ write_byte tile.x ++ write_byte tile.y ++
       write_uint32 hid
     | none => start_node OTBM_TILE ++ write_byte tile.x ++ write_byte tile.y) ++
    (if tile.map_flags ≠ 0 then
      write_byte OTBM_ATTR_TILE_FLAGS ++ write_uint32 tile.map_flags else []) ++
    writeItemsList (itemsToWrite tp tile.items) ++ end_node

/-- One tile-area node (sec_to_otbm.py lines 918-957). -/
def writeArea (tp : List (Int × Int)) (key : Int × Int × Int)
    (tiles : List TileRecord) : List Int :=
  start_node OTBM_TILE_AREA ++ write_uint16 key.1 ++ write_uint16 key.2.1 ++
  write_byte key.2.2 ++ tiles.flatMap (writeTile tp) ++ end_node

/-- One town node (sec_to_otbm.py lines 966-972). -/
def writeTownNode (t : Town) : List Int :=
  start_node OTBM_TOWN ++ write_uint32 t.id ++ write_string t.name ++
  write_uint16 t.x ++ write_uint16 t.y ++ write_byte t.z ++ end_node

/-- The towns block (sec_to_otbm.py lines 963-973), written only when the
town list is nonempty. -/
def writeTownsBlock (towns : List Town) : List Int :=
  if towns = [] then []
  else start_node OTBM_TOWNS ++ towns.flatMap writeTownNode ++ end_node

/-- `build_otbm_header` (sec_to_otbm.py lines 781-790): root node 0 with
OTBM version 1, width, height, OTB major 1 and minor 100.  The root node
opened here is never closed by `convert_map_to_otbm`. -/
def build_otbm_header (width height : Int) : List Int :=
  start_node OTBM_MAP_HEADER ++ write_uint32 1 ++ write_uint16 width ++
  write_uint16 height ++ write_uint32 1 ++ write_uint32 100

/-- Per-tile area assignment (sec_to_otbm.py lines 886-911): absolute
coordinates from sector key and local tile coordinates, area key
`(x & 0xFF00, y & 0xFF00, z)`, locals `x & 0xFF`, house id looked up at the
absolute position.  `x & 0xFF00 = ((x >> 8) & 0xFF) << 8` and
`x & 0xFF = x mod 256` for Python integers. -/
def tileRecordsOf (house_positions : List ((Int × Int × Int) × Int))
    (sector : (Int × Int × Int) × List SecTile) :
    List ((Int × Int × Int) × TileRecord) :=
  sector.2.map fun t =>
    let absx := sector.1.1 * 32 + t.lx
    let absy := sector.1.2.1 * 32 + t.ly
    let z := sector.1.2.2
    (((absx.fdiv 256).emod 256 * 256, (absy.fdiv 256).emod 256 * 256, z),
     { x := absx.emod 256, y := absy.emod 256, items := t.items,
       map_flags := t.map_flags,
       house_id := house_positions.lookup (absx, absy, z) })

/-- `defaultdict(list)` accumulation: append the record to its key's list,
keeping first-insertion key order. -/
def upsertArea (key : Int × Int × Int) (rec : TileRecord) :
    List ((Int × Int × Int) × List TileRecord) →
      List ((Int × Int × Int) × List TileRecord)
  | [] => [(key, [rec])]
  | (k, vs) :: t =>
    if k = key then (k, vs ++ [rec]) :: t else (k, vs) :: upsertArea key rec t

def groupAreas (l : List ((Int × Int × Int) × TileRecord)) :
    List ((Int × Int × Int) × List TileRecord) :=
  l.foldl (fun acc kr => upsertArea kr.1 kr.2 acc) []

/-- Python tuple `<` on area keys (lexicographic). -/
def areaKeyLt (u v : Int × Int × Int) : Bool :=
  if u.1 < v.1 then true
  else if v.1 < u.1 then false
  else if u.2.1 < v.2.1 then true
  else if v.2.1 < u.2.1 then false
  else decide (u.2.2 < v.2.2)

def insertAreaSorted (a : (Int × Int × Int) × List TileRecord) :
    List ((Int × Int × Int) × List TileRecord) →
      List ((Int × Int × Int) × List TileRecord)
  | [] => [a]
  | b :: t => if areaKeyLt b.1 a.1 then b :: insertAreaSorted a t else a :: b :: t

/-- `sorted(areas.items())` (sec_to_otbm.py line 918); area keys are
distinct, so any order-correct sort matches Python's. -/
def sortAreas : List ((Int × Int × Int) × List TileRecord) →
    List ((Int × Int × Int) × List TileRecord)
  | [] => []
  | a :: t => insertAreaSorted a (sortAreas t)

/-- Latin-1 bytes of `"-spawn.xml"`. -/
def spawnSuffix : List Int := [45, 115, 112, 97, 119, 110, 46, 120, 109, 108]

/-- Latin-1 bytes of `"-house.xml"`. -/
def houseSuffix : List Int := [45, 104, 111, 117, 115, 101, 46, 120, 109, 108]

/-- `convert_map_to_otbm` (sec_to_otbm.py lines 845-997): the bytes of the
emitted .otbm file — the raw `OTBM` magic, the root header node (never
closed), the MapData node with description / external spawn file / external
house file attributes, the sorted tile areas, the towns block, and the
single closing 0xFF of line 976 (which closes MapData only).  Returns
nothing when there are no sectors (lines 858-860). -/
def convert_map_to_otbm (sectors : List ((Int × Int × Int) × List SecTile))
    (map_name : List Int) (towns : List Town)
    (house_positions : List ((Int × Int × Int) × Int))
    (tp : List (Int × Int)) : List Int :=
  if sectors.isEmpty then []
  else
    [79, 84, 66, 77] ++
    build_otbm_header 65535 65535 ++
    start_node OTBM_MAP_DATA ++
    write_byte OTBM_ATTR_DESCRIPTION ++ write_string map_name ++
    write_byte OTBM_ATTR_EXT_SPAWN_FILE ++
    write_string (map_name ++ spawnSuffix) ++
    write_byte OTBM_ATTR_EXT_HOUSE_FILE ++
    write_string (map_name ++ houseSuffix) ++
    (sortAreas (groupAreas
        (sectors.flatMap (tileRecordsOf house_positions)))).flatMap
      (fun kv => writeArea tp kv.1 kv.2) ++
    writeTownsBlock towns ++
    end_node

/-- A plain item instance with no attributes. -/
def demoItem (i : Int) : ItemData := .mk i none none none none none none none []

/-- One sector, one tile, one plain item: the smallest input on which the
map writer emits a file. -/
def demoSectors : List ((Int × Int × Int) × List SecTile) :=
  [((0, 0, 0), [⟨0, 0, 0, [demoItem 100]⟩])]

/-- **C1.** Node balance.  The OTB item database is balanced for every
catalog (the root node and every item node are closed); but the OTBM map
writer never closes the root header node — `convert_map_to_otbm` emits a
single closing 0xFF for MapData (sec_to_otbm.py line 976) and none for the
root opened by `build_otbm_header` — so on a one-tile map the emitted file
has five non-escaped 0xFE markers and only four 0xFF markers. -/
theorem node_balance_c1 :
    (∀ items : List SrvItem,
        (markCounts (generate_items_otb items)).1 =
          (markCounts (generate_items_otb items)).2) ∧
    markCounts (convert_map_to_otbm demoSectors [109] [] [] []) = (5, 4) :=
  ⟨otb_markCounts_balanced, by decide⟩

/-- A town record with a given x coordinate. -/
def townX (x : Int) : Town := ⟨1, [116], x, 10, 7⟩

/-- **C9 counterexample.** The town node for x = 70000 has the same bytes
as the town node for x = 4464 (70000 mod 65536): `write_uint16` truncates.
Under the claim (clamping to [0, 65535]) it would instead equal the town
node for x = 65535, but it does not. -/
theorem overflow_not_clamped_counterexample :
    writeTownNode (townX 70000) = writeTownNode (townX 4464) ∧
    writeTownNode (townX 70000) ≠ writeTownNode (townX 65535) := by
  refine ⟨?_, ?_⟩ <;> decide

/-- An item instance carrying only a count. -/
def countOnlyItem (i c : Int) : ItemData :=
  .mk i none (some c) none none none none none []

/-- An item instance carrying only charges. -/
def chargesOnlyItem (i c : Int) : ItemData :=
  .mk i none none none none (some c) none none []

/-- An item instance carrying only a teleport destination. -/
def teleOnlyItem (i x y z : Int) : ItemData :=
  .mk i none none none none none none (some (x, y, z)) []

theorem write_uint16_emod (v : Int) :
    write_uint16 v = write_uint16 (v.emod 65536) := by
  unfold write_uint16
  have h1 : (v.emod 65536).emod 256 = v.emod 256 := by
    show (v % 65536) % 256 = v % 256
    omega
  have h2 : ((v.emod 65536).fdiv 256).emod 256 = (v.fdiv 256).emod 256 := by
    rw [Int.fdiv_eq_ediv _ (by norm_num), Int.fdiv_eq_ediv _ (by norm_num)]
    show ((v % 65536) / 256) % 256 = (v / 256) % 256
    omega
  rw [h1, h2]

/-- **C9 (amended).** The item writer clamps exactly the Count byte (to
[0, 255]), the Charges word (to [0, 65535]) and the TeleportDest fields
(x, y to [0, 65535], z to [0, 15]): writing an out-of-range value emits the
same bytes as writing its clamp.  All other emitted 16-bit values (town
coordinates among them) are truncated modulo 65536 by `write_uint16`, not
clamped. -/
theorem overflow_clamping_amended :
    (∀ v : Int, write_uint16 v = write_uint16 (v.emod 65536)) ∧
    (∀ i c : Int, writeItemRec (countOnlyItem i c) =
        writeItemRec (countOnlyItem i (min 255 (max 0 c)))) ∧
    (∀ i c : Int, writeItemRec (chargesOnlyItem i c) =
        writeItemRec (chargesOnlyItem i (min 65535 (max 0 c)))) ∧
    (∀ i x y z : Int, writeItemRec (teleOnlyItem i x y z) =
        writeItemRec (teleOnlyItem i (min 65535 (max 0 x)) (min 65535 (max 0 y))
          (min 15 (max 0 z)))) ∧
    (∀ t : Town, writeTownNode t =
        writeTownNode ⟨t.id, t.name, t.x.emod 65536, t.y.emod 65536, t.z⟩) := by
  refine ⟨write_uint16_emod, ?_, ?_, ?_, ?_⟩
  · intro i c
    simp only [countOnlyItem, writeItemRec]
    have h : min 255 (max 0 (min 255 (max 0 c))) = min 255 (max 0 c) := by omega
    rw [h]
  · intro i c
    simp only [chargesOnlyItem, writeItemRec]
    have h : min 65535 (max 0 (min 65535 (max 0 c))) = min 65535 (max 0 c) := by
      omega
    rw [h]
  · intro i x y z
    simp only [teleOnlyItem, writeItemRec]
    have hx : min 65535 (max 0 (min 65535 (max 0 x))) = min 65535 (max 0 x) := by
      omega
    have hy : min 65535 (max 0 (min 65535 (max 0 y))) = min 65535 (max 0 y) := by
      omega
    have hz : min 15 (max 0 (min 15 (max 0 z))) = min 15 (max 0 z) := by omega
    rw [hx, hy, hz]
  · intro t
    unfold writeTownNode
    rw [write_uint16_emod t.x, write_uint16_emod t.y]

/-- A plain container (`Container` flag, Capacity 10) for the C7 witness. -/
def plainContainerItem : SrvItem :=
  ⟨300, [98, 97, 103], ["Container"], none, some 10⟩

/-- Witness for the amended C7 at a concrete container item. -/
theorem otb_maxitems_amended_witness :
    (1 ≤ otbVolume plainContainerItem ∧ otbVolume plainContainerItem ≤ 65535) ∧
    (∀ c : Int, "Container" ∈ plainContainerItem.flags →
      plainContainerItem.capacity = some c →
      otbVolume plainContainerItem = max 1 (min 65535 c)) ∧
    (("Container" ∉ plainContainerItem.flags ∨
        plainContainerItem.capacity = none) →
      otbVolume plainContainerItem = 8) ∧
    itemNodeBytes plainContainerItem =
      [NODE_INIT, ITEM_GROUP_CONTAINER] ++
        escape_otb_data (pack32 (otbFlags plainContainerItem.flags) ++
          serverIdAttr plainContainerItem ++ clientIdAttr plainContainerItem ++
          nameAttr plainContainerItem ++ maxItemsAttr plainContainerItem) ++
        [NODE_TERM] :=
  otb_maxitems_amended plainContainerItem (by decide) (by decide)

/-! ### Stability of the tile-stack sort (C4) -/

section StableSort

variable {α : Type} (k : α → Int)

/-- The elements of `L` whose key is `c`, in order. -/
def keyFilter (c : Int) (L : List α) : List α :=
  L.filter fun b => decide (k b = c)

theorem keyFilter_cons (c : Int) (a : α) (L : List α) :
    keyFilter k c (a :: L) =
      if k a = c then a :: keyFilter k c L else keyFilter k c L := by
  by_cases h : k a = c <;> simp [keyFilter, List.filter_cons, h]

theorem keyFilter_append (c : Int) (L M : List α) :
    keyFilter k c (L ++ M) = keyFilter k c L ++ keyFilter k c M := by
  simp [keyFilter, List.filter_append]

theorem mem_insertByKey (a x : α) (M : List α) :
    x ∈ insertByKey k a M ↔ x = a ∨ x ∈ M := by
  induction M with
  | nil => simp [insertByKey]
  | cons b t ih =>
    by_cases h : k b < k a
    · simp only [insertByKey, if_pos h, List.mem_cons, ih]
      tauto
    · simp only [insertByKey, if_neg h, List.mem_cons]

theorem keyFilter_insertByKey (c : Int) (a : α) (M : List α) :
    keyFilter k c (insertByKey k a M) =
      if k a = c then a :: keyFilter k c M else keyFilter k c M := by
  induction M with
  | nil =>
    show keyFilter k c [a] = _
    rw [keyFilter_cons]
  | cons b t ih =>
    by_cases h : k b < k a
    · rw [insertByKey, if_pos h, keyFilter_cons, ih, keyFilter_cons]
      by_cases hac : k a = c
      · have hbc : ¬ k b = c := by omega
        rw [if_neg hbc, if_pos hac, if_neg hbc, if_pos hac]
      · rw [if_neg hac, if_neg hac]
    · rw [insertByKey, if_neg h, keyFilter_cons]

theorem keyFilter_isortKey (c : Int) (L : List α) :
    keyFilter k c (isortKey k L) = keyFilter k c L := by
  induction L with
  | nil => rfl
  | cons a t ih =>
    rw [isortKey, keyFilter_insertByKey, keyFilter_cons, ih]

theorem pairwise_insertByKey (a : α) (M : List α)
    (h : M.Pairwise fun u v => k u ≤ k v) :
    (insertByKey k a M).Pairwise fun u v => k u ≤ k v := by
  induction M with
  | nil => simp [insertByKey]
  | cons b t ih =>
    rw [List.pairwise_cons] at h
    by_cases hlt : k b < k a
    · rw [insertByKey, if_pos hlt, List.pairwise_cons]
      refine ⟨?_, ih h.2⟩
      intro x hx
      rcases (mem_insertByKey k a x t).1 hx with rfl | hxt
      · omega
      · exact h.1 x hxt
    · rw [insertByKey, if_neg hlt, List.pairwise_cons, List.pairwise_cons]
      refine ⟨?_, h.1, h.2⟩
      intro x hx
      rcases List.mem_cons.1 hx with rfl | hxt
      · omega
      · have := h.1 x hxt
        omega

theorem pairwise_isortKey (L : List α) :
    (isortKey k L).Pairwise fun u v => k u ≤ k v := by
  induction L with
  | nil => simp [isortKey]
  | cons a t ih => exact pairwise_insertByKey k a _ ih

theorem mem_of_mem_keyFilter {c : Int} {x : α} {L : List α}
    (h : x ∈ keyFilter k c L) : x ∈ L ∧ k x = c := by
  unfold keyFilter at h
  have := List.mem_filter.1 h
  simpa using this

theorem self_mem_keyFilter {c : Int} {x : α} {L : List α}
    (hx : x ∈ L) (hc : k x = c) : x ∈ keyFilter k c L := by
  unfold keyFilter
  exact List.mem_filter.2 ⟨hx, by simpa using hc⟩

/-- Two key-sorted lists with the same per-key sublists are equal:
extensional uniqueness of the stable sort. -/
theorem sorted_keyFilter_unique :
    ∀ (M N : List α), (M.Pairwise fun u v => k u ≤ k v) →
      (N.Pairwise fun u v => k u ≤ k v) →
      (∀ c, keyFilter k c M = keyFilter k c N) → M = N := by
  intro M
  induction M with
  | nil =>
    intro N _ _ hf
    cases N with
    | nil => rfl
    | cons b t =>
      have := hf (k b)
      rw [keyFilter_cons, if_pos rfl] at this
      simp [keyFilter] at this
  | cons a M2 ih =>
    intro N hM hN hf
    cases N with
    | nil =>
      have := hf (k a)
      rw [keyFilter_cons, if_pos rfl] at this
      simp [keyFilter] at this
    | cons b N2 =>
      rw [List.pairwise_cons] at hM hN
      have hab : k a = k b := by
        have ha : a ∈ keyFilter k (k a) (b :: N2) := by
          rw [← hf (k a)]
          exact self_mem_keyFilter k (by simp) rfl
        have hb : b ∈ keyFilter k (k b) (a :: M2) := by
          rw [hf (k b)]
          exact self_mem_keyFilter k (by simp) rfl
        have h1 : k b ≤ k a := by
          rcases List.mem_cons.1 (mem_of_mem_keyFilter k ha).1 with rfl | hm
          · rfl
          · exact hN.1 a hm
        have h2 : k a ≤ k b := by
          rcases List.mem_cons.1 (mem_of_mem_keyFilter k hb).1 with rfl | hm
          · rfl
          · exact hM.1 b hm
        omega
      have hhead := hf (k a)
      rw [keyFilter_cons, if_pos rfl, keyFilter_cons, if_pos hab.symm] at hhead
      have hae : a = b := (List.cons_eq_cons.1 hhead).1
      subst hae
      have htail : ∀ c, keyFilter k c M2 = keyFilter k c N2 := by
        intro c
        by_cases hc : k a = c
        · have := hf c
          rw [keyFilter_cons, if_pos hc, keyFilter_cons, if_pos hc] at this
          exact (List.cons_eq_cons.1 this).2
        · have := hf c
          rwa [keyFilter_cons, if_neg hc, keyFilter_cons, if_neg hc] at this
      exact congrArg (a :: ·) (ih N2 hM.2 hN.2 htail)

/-- If a key-`c` filter of `M` decomposes around an element, `M` itself
decomposes around that element with matching filters. -/
theorem keyFilter_decomp :
    ∀ (M : List α) (c : Int) (s t : List α) (a : α),
      keyFilter k c M = s ++ a :: t →
      ∃ M1 M2, M = M1 ++ a :: M2 ∧ keyFilter k c M1 = s ∧
        keyFilter k c M2 = t := by
  intro M
  induction M with
  | nil =>
    intro c s t a h
    simp [keyFilter] at h
  | cons b M2 ih =>
    intro c s t a h
    rw [keyFilter_cons] at h
    by_cases hb : k b = c
    · rw [if_pos hb] at h
      cases s with
      | nil =>
        simp only [List.nil_append] at h
        obtain ⟨rfl, htail⟩ := List.cons_eq_cons.1 h
        exact ⟨[], M2, rfl, rfl, htail⟩
      | cons s0 s2 =>
        obtain ⟨rfl, htail⟩ := List.cons_eq_cons.1 h
        obtain ⟨M1, M3, rfl, hf1, hf2⟩ := ih c s2 t a htail
        refine ⟨b :: M1, M3, rfl, ?_, hf2⟩
        rw [keyFilter_cons, if_pos hb, hf1]
    · rw [if_neg hb] at h
      obtain ⟨M1, M3, rfl, hf1, hf2⟩ := ih c s t a h
      refine ⟨b :: M1, M3, rfl, ?_, hf2⟩
      rw [keyFilter_cons, if_neg hb, hf1]

/-- Filter of a context list around two elements whose key is `c`. -/
theorem keyFilter_ctx_pos (c : Int) (A B C : List α) (x y : α)
    (hx : k x = c) (hy : k y = c) :
    keyFilter k c (A ++ x :: (B ++ y :: C)) =
      keyFilter k c A ++ x :: (keyFilter k c B ++ y :: keyFilter k c C) := by
  rw [keyFilter_append, keyFilter_cons, if_pos hx, keyFilter_append,
    keyFilter_cons, if_pos hy]

/-- Filter of the same context at a key different from both elements. -/
theorem keyFilter_ctx_neg (c : Int) (A B C : List α) (x y : α)
    (hx : ¬ k x = c) (hy : ¬ k y = c) :
    keyFilter k c (A ++ x :: (B ++ y :: C)) =
      keyFilter k c A ++ (keyFilter k c B ++ keyFilter k c C) := by
  rw [keyFilter_append, keyFilter_cons, if_neg hx, keyFilter_append,
    keyFilter_cons, if_neg hy]

/-- Swapping two equal-key elements of the input swaps exactly those two
elements, in place, in the stable-sorted output. -/
theorem isortKey_swap (A B C : List α) (x y : α) (hk : k x = k y) :
    ∃ P Q R, isortKey k (A ++ x :: (B ++ y :: C)) = P ++ x :: (Q ++ y :: R) ∧
      isortKey k (A ++ y :: (B ++ x :: C)) = P ++ y :: (Q ++ x :: R) := by
  have hfL1 : keyFilter k (k x) (isortKey k (A ++ x :: (B ++ y :: C))) =
      keyFilter k (k x) A ++
        x :: (keyFilter k (k x) B ++ y :: keyFilter k (k x) C) := by
    rw [keyFilter_isortKey, keyFilter_ctx_pos k _ _ _ _ _ _ rfl hk.symm]
  obtain ⟨P, M2, hdec1, hfP, hfM2⟩ :=
    keyFilter_decomp k _ (k x) _ _ x hfL1
  obtain ⟨Q, R, hdec2, hfQ, hfR⟩ :=
    keyFilter_decomp k M2 (k x) _ _ y hfM2
  subst hdec2
  refine ⟨P, Q, R, hdec1, ?_⟩
  have hsortedS1 :
      (P ++ x :: (Q ++ y :: R)).Pairwise fun u v => k u ≤ k v := by
    rw [← hdec1]
    exact pairwise_isortKey k _
  apply sorted_keyFilter_unique k _ _ (pairwise_isortKey k _)
  · have hmap : (P ++ y :: (Q ++ x :: R)).map k =
        (P ++ x :: (Q ++ y :: R)).map k := by
      simp [hk]
    have h1 : ((P ++ x :: (Q ++ y :: R)).map k).Pairwise
        fun u v : Int => u ≤ v := List.pairwise_map.2 hsortedS1
    rw [← hmap] at h1
    exact List.pairwise_map.1 h1
  · intro c2
    rw [keyFilter_isortKey]
    by_cases hcc : k x = c2
    · subst hcc
      have hyc : k y = k x := hk.symm
      rw [keyFilter_ctx_pos k (k x) A B C y x hyc rfl,
        keyFilter_ctx_pos k (k x) P Q R y x hyc rfl, hfP, hfQ, hfR]
    · have hyc : ¬ k y = c2 := fun hc => hcc (hk ▸ hc)
      rw [keyFilter_ctx_neg k c2 A B C y x hyc hcc,
        keyFilter_ctx_neg k c2 P Q R y x hyc hcc]
      have hL1f : keyFilter k c2 (isortKey k (A ++ x :: (B ++ y :: C))) =
          keyFilter k c2 (A ++ x :: (B ++ y :: C)) :=
        keyFilter_isortKey k c2 _
      rw [hdec1, keyFilter_ctx_neg k c2 P Q R x y hcc hyc,
        keyFilter_ctx_neg k c2 A B C x y hcc hyc] at hL1f
      exact hL1f.symm

end StableSort

theorem itemsToWrite_eq {tp : List (Int × Int)} (L : List ItemData)
    (htp : tp ≠ []) :
    itemsToWrite tp L = (isortKey (stackPriorityOf tp) L).reverse := by
  rw [itemsToWrite, if_neg htp, sortTileItemsByPriority]
  by_cases hL : L.isEmpty
  · have : L = [] := List.isEmpty_iff.1 hL
    subst this
    simp [isortKey]
  · rw [if_neg (by simp [hL, htp])]

/-- **C4.** With a (nonempty) priority table the item list written for a
tile equals `reverse(stable_sort_by_priority(L))`; ids absent from the
table get priority Low = 5; with no priority table items are written in
input order; and swapping two equal-priority items of the input swaps
exactly those two items at the corresponding output positions. -/
theorem tile_stack_order_spec :
    (∀ (tp : List (Int × Int)) (L : List ItemData), tp ≠ [] →
        itemsToWrite tp L = (isortKey (stackPriorityOf tp) L).reverse) ∧
    (∀ L : List ItemData, itemsToWrite [] L = L) ∧
    (∀ (tp : List (Int × Int)) (it : ItemData), tp.lookup it.id = none →
        stackPriorityOf tp it = STACK_PRIORITY_LOW) ∧
    (∀ (tp : List (Int × Int)) (A B C : List ItemData) (x y : ItemData),
        tp ≠ [] → stackPriorityOf tp x = stackPriorityOf tp y →
        ∃ U V W,
          itemsToWrite tp (A ++ x :: (B ++ y :: C)) =
            U ++ y :: (V ++ x :: W) ∧
          itemsToWrite tp (A ++ y :: (B ++ x :: C)) =
            U ++ x :: (V ++ y :: W)) := by
  refine ⟨fun tp L htp => itemsToWrite_eq L htp, fun L => rfl, ?_, ?_⟩
  · intro tp it h
    rw [stackPriorityOf, h]
    rfl
  · intro tp A B C x y htp hkey
    obtain ⟨P, Q, R, h1, h2⟩ := isortKey_swap (stackPriorityOf tp) A B C x y hkey
    refine ⟨R.reverse, Q.reverse, P.reverse, ?_, ?_⟩
    · rw [itemsToWrite_eq _ htp, h1]
      simp
    · rw [itemsToWrite_eq _ htp, h2]
      simp

/-- Witness for C4: a one-entry priority table, items with ids absent from
it, and a concrete equal-priority swap. -/
theorem tile_stack_order_spec_witness :
    itemsToWrite [(1, 0)] [demoItem 7] =
      (isortKey (stackPriorityOf [(1, 0)]) [demoItem 7]).reverse ∧
    itemsToWrite [] [demoItem 7] = [demoItem 7] ∧
    stackPriorityOf [(1, 0)] (demoItem 7) = STACK_PRIORITY_LOW ∧
    (∃ U V W,
      itemsToWrite [(1, 0)] ([] ++ demoItem 7 :: ([] ++ demoItem 8 :: [])) =
        U ++ demoItem 8 :: (V ++ demoItem 7 :: W) ∧
      itemsToWrite [(1, 0)] ([] ++ demoItem 8 :: ([] ++ demoItem 7 :: [])) =
        U ++ demoItem 7 :: (V ++ demoItem 8 :: W)) :=
  ⟨tile_stack_order_spec.1 _ _ (by decide),
   tile_stack_order_spec.2.1 _,
   tile_stack_order_spec.2.2.1 _ _ (by decide),
   tile_stack_order_spec.2.2.2 _ _ _ _ _ _ (by decide) (by decide)⟩

/-! ### Creature-placement planner (sec_to_otbm.py, `generate_spawns_xml`) -/

/-- A world position `(x, y, z)`. -/
abbrev Pos : Type := Int × Int × Int

/-- One parsed line of monster.db (`parse_monster_db`, sec_to_otbm.py
lines 1201-1230). -/
structure MonsterSpawn where
  race : Int
  x : Int
  y : Int
  z : Int
  radius : Int
  amount : Int
  spawntime : Int
  deriving DecidableEq

/-- One parsed NPC spawn (`parse_npc_files`, sec_to_otbm.py lines
1287-1295). -/
structure NpcSpawn where
  name : String
  x : Int
  y : Int
  z : Int
  radius : Int
  deriving DecidableEq

/-- One emitted spawn region of the generated XML (the `<spawn>` blocks of
`generate_spawns_xml`): its kind, creature name, declared center and the
per-creature offsets.  (The emitted radius and spawntime are plain
functions of these fields and are not modelled.) -/
structure SpawnRegionOut where
  isNpc : Bool
  name : String
  center : Pos
  offsets : List (Int × Int)
  deriving DecidableEq

/-- `load_walkable_tiles_from_sectors` (sec_to_otbm.py lines 342-360): the
set of absolute positions of tiles having at least one item (modelled as a
list with membership semantics). -/
def load_walkable_tiles_from_sectors
    (sectors : List ((Int × Int × Int) × List SecTile)) : List Pos :=
  sectors.flatMap fun s =>
    (s.2.filter fun t => !t.items.isEmpty).map fun t =>
      (s.1.1 * 32 + t.lx, s.1.2.1 * 32 + t.ly, s.1.2.2)

/-- Python `range(lo, hi + 1)` over integers. -/
def intRange (lo hi : Int) : List Int :=
  (List.range (hi + 1 - lo).toNat).map fun i => lo + (i : Int)

/-- The perimeter cells of ring `r` in the source's iteration order
(`for dx in range(-radius, radius+1): for dy in range(-radius, radius+1)`
keeping `abs(dx) == radius or abs(dy) == radius`, sec_to_otbm.py lines
1378-1384; non-perimeter cells are no-ops and are dropped here). -/
def ringCells (r : Nat) : List (Int × Int) :=
  (intRange (-(r : Int)) r).flatMap fun dx =>
    (intRange (-(r : Int)) r).filterMap fun dy =>
      if dx.natAbs = r ∨ dy.natAbs = r then some (dx, dy) else none

/-- The monster probe sequence (sec_to_otbm.py lines 1363-1396): the
center, then rings 1..49; the loop stops as soon as `amount` creatures are
placed, which `placeCells` checks before every cell exactly as the
`placed_count >= amount` breaks do. -/
def monsterCandidates : List (Int × Int) :=
  (0, 0) :: (List.range 49).flatMap fun i => ringCells (i + 1)

/-- The placement scan over candidate cells (sec_to_otbm.py lines
1363-1396): a cell is claimed iff its tile is walkable and not yet in the
global used set; claimed tiles go into the used set and their offsets into
the region's offset list (`placed_count` always equals
`len(creature_offsets)` in the source). -/
def placeCells (walkable : List Pos) (amount : Int) (cx cy z : Int) :
    List (Int × Int) → List Pos → List (Int × Int) →
      List Pos × List (Int × Int)
  | [], used, offsets => (used, offsets)
  | d :: rest, used, offsets =>
    if (offsets.length : Int) ≥ amount then (used, offsets)
    else
      let tile : Pos := (cx + d.1, cy + d.2, z)
      if tile ∈ walkable ∧ tile ∉ used then
        placeCells walkable amount cx cy z rest (tile :: used)
          (offsets ++ [d])
      else placeCells walkable amount cx cy z rest used offsets

/-- The running state of the planner: the global claimed-tile set, the
global spawn-center set, and the regions emitted so far. -/
structure PlacementState where
  used : List Pos
  centers : List Pos
  regions : List SpawnRegionOut

/-- One monster.db spawn (sec_to_otbm.py lines 1343-1422): skip unknown
races; record the declared center unconditionally; place up to `amount`
creatures on walkable unclaimed tiles; emit the region only when at least
one creature was placed. -/
def processMonster (walkable : List Pos) (raceMap : List (Int × String))
    (st : PlacementState) (sp : MonsterSpawn) : PlacementState :=
  match raceMap.lookup sp.race with
  | none => st
  | some name =>
    let center : Pos := (sp.x, sp.y, sp.z)
    let r := placeCells walkable sp.amount sp.x sp.y sp.z monsterCandidates
      st.used []
    if r.2.isEmpty then
      { used := r.1, centers := center :: st.centers, regions := st.regions }
    else
      { used := r.1, centers := center :: st.centers,
        regions := st.regions ++ [⟨false, name, center, r.2⟩] }

/-- The NPC center-shift candidates (sec_to_otbm.py lines 1437-1492): the
original center, then the four cardinal neighbours, then rings 2..9. -/
def npcCandidates : List (Int × Int) :=
  (0, 0) :: ([(1, 0), (-1, 0), (0, 1), (0, -1)] ++
    (List.range 8).flatMap fun i => ringCells (i + 2))

/-- One NPC spawn (sec_to_otbm.py lines 1426-1505): the first candidate
center that is not an existing spawn center and whose tile is walkable and
unclaimed becomes the (possibly shifted) center; the NPC is written with
offset (0, 0); otherwise the NPC is skipped. -/
def processNpc (walkable : List Pos) (st : PlacementState)
    (npc : NpcSpawn) : PlacementState :=
  match npcCandidates.find? (fun d =>
      let center : Pos := (npc.x + d.1, npc.y + d.2, npc.z)
      decide (center ∉ st.centers ∧ center ∈ walkable ∧
        center ∉ st.used)) with
  | none => st
  | some d =>
    let center : Pos := (npc.x + d.1, npc.y + d.2, npc.z)
    { used := center :: st.used, centers := center :: st.centers,
      regions := st.regions ++ [⟨true, npc.name, center, [(0, 0)]⟩] }

/-- `generate_spawns_xml` (sec_to_otbm.py lines 1311-1516), reduced to the
spawn regions it emits: monsters first in monster.db order, then NPCs. -/
def generate_spawns (sectors : List ((Int × Int × Int) × List SecTile))
    (raceMap : List (Int × String)) (monsters : List MonsterSpawn)
    (npcs : List NpcSpawn) : List SpawnRegionOut :=
  let walkable := load_walkable_tiles_from_sectors sectors
  let st1 := monsters.foldl (processMonster walkable raceMap)
    ⟨[], [], []⟩
  (npcs.foldl (processNpc walkable) st1).regions

/-- The absolute positions of a region's creatures. -/
def regionPositions (r : SpawnRegionOut) : List Pos :=
  r.offsets.map fun d => (r.center.1 + d.1, r.center.2.1 + d.2, r.center.2.2)

/-- All creature positions of a region list. -/
def allPositions (rs : List SpawnRegionOut) : List Pos :=
  rs.flatMap regionPositions

/-- The positions reached from `(cx, cy, z)` by a list of offsets. -/
def posOf (cx cy z : Int) (offsets : List (Int × Int)) : List Pos :=
  offsets.map fun d => (cx + d.1, cy + d.2, z)

theorem posOf_append (cx cy z : Int) (a b : List (Int × Int)) :
    posOf cx cy z (a ++ b) = posOf cx cy z a ++ posOf cx cy z b := by
  simp [posOf]

/-- Every tile claimed by the placement scan is fresh and walkable: the
scan preserves the used set, the placed positions are distinct, walkable,
all claimed, and none of them was in the used set it started from (beyond
those already placed). -/
theorem placeCells_spec (walkable : List Pos) (amount : Int) (cx cy z : Int) :
    ∀ (cells : List (Int × Int)) (used : List Pos)
      (offsets : List (Int × Int)),
      (posOf cx cy z offsets).Nodup →
      (∀ p ∈ posOf cx cy z offsets, p ∈ walkable) →
      (∀ p ∈ posOf cx cy z offsets, p ∈ used) →
      (∀ p ∈ used,
          p ∈ (placeCells walkable amount cx cy z cells used offsets).1) ∧
      (posOf cx cy z
          (placeCells walkable amount cx cy z cells used offsets).2).Nodup ∧
      (∀ p ∈ posOf cx cy z
          (placeCells walkable amount cx cy z cells used offsets).2,
          p ∈ walkable) ∧
      (∀ p ∈ posOf cx cy z
          (placeCells walkable amount cx cy z cells used offsets).2,
          p ∈ (placeCells walkable amount cx cy z cells used offsets).1) ∧
      (∀ p ∈ posOf cx cy z
          (placeCells walkable amount cx cy z cells used offsets).2,
          p ∈ posOf cx cy z offsets ∨ p ∉ used) := by
  intro cells
  induction cells with
  | nil =>
    intro used offsets h1 h2 h3
    exact ⟨fun p hp => hp, h1, h2, h3, fun p hp => Or.inl hp⟩
  | cons d rest ih =>
    intro used offsets h1 h2 h3
    rw [placeCells]
    by_cases hstop : (offsets.length : Int) ≥ amount
    · rw [if_pos hstop]
      exact ⟨fun p hp => hp, h1, h2, h3, fun p hp => Or.inl hp⟩
    · rw [if_neg hstop]
      by_cases hplace : (cx + d.1, cy + d.2, z) ∈ walkable ∧
          (cx + d.1, cy + d.2, z) ∉ used
      · rw [if_pos hplace]
        have htile : (cx + d.1, cy + d.2, z) ∉ posOf cx cy z offsets :=
          fun hmem => hplace.2 (h3 _ hmem)
        have h1' : (posOf cx cy z (offsets ++ [d])).Nodup := by
          rw [posOf_append]
          simp only [posOf, List.map_cons, List.map_nil]
          rw [List.nodup_append]
          exact ⟨h1, List.nodup_singleton _,
            fun p hp hq => htile (by simpa using (List.mem_singleton.1 hq) ▸ hp)⟩
        have h2' : ∀ p ∈ posOf cx cy z (offsets ++ [d]), p ∈ walkable := by
          intro p hp
          rw [posOf_append] at hp
          rcases List.mem_append.1 hp with hp | hp
          · exact h2 p hp
          · have : p = (cx + d.1, cy + d.2, z) := by simpa [posOf] using hp
            rw [this]
            exact hplace.1
        have h3' : ∀ p ∈ posOf cx cy z (offsets ++ [d]),
            p ∈ (cx + d.1, cy + d.2, z) :: used := by
          intro p hp
          rw [posOf_append] at hp
          rcases List.mem_append.1 hp with hp | hp
          · exact List.mem_cons_of_mem _ (h3 p hp)
          · have : p = (cx + d.1, cy + d.2, z) := by simpa [posOf] using hp
            rw [this]
            exact List.mem_cons_self _ _
        obtain ⟨c1, c2, c3, c4, c5⟩ := ih ((cx + d.1, cy + d.2, z) :: used)
          (offsets ++ [d]) h1' h2' h3'
        refine ⟨fun p hp => c1 p (List.mem_cons_of_mem _ hp), c2, c3, c4, ?_⟩
        intro p hp
        rcases c5 p hp with hp2 | hp2
        · rw [posOf_append] at hp2
          rcases List.mem_append.1 hp2 with hp3 | hp3
          · exact Or.inl hp3
          · have : p = (cx + d.1, cy + d.2, z) := by simpa [posOf] using hp3
            rw [this]
            exact Or.inr hplace.2
        · exact Or.inr fun hpu => hp2 (List.mem_cons_of_mem _ hpu)
      · rw [if_neg hplace]
        exact ih used offsets h1 h2 h3

/-- The global planner invariant: emitted creature positions are distinct,
walkable, and all recorded in the global used set. -/
def PlannerInv (walkable : List Pos) (st : PlacementState) : Prop :=
  (allPositions st.regions).Nodup ∧
  (∀ p ∈ allPositions st.regions, p ∈ walkable) ∧
  (∀ p ∈ allPositions st.regions, p ∈ st.used)

theorem allPositions_append (a b : List SpawnRegionOut) :
    allPositions (a ++ b) = allPositions a ++ allPositions b := by
  simp [allPositions]

theorem processMonster_inv (walkable : List Pos)
    (raceMap : List (Int × String)) (st : PlacementState)
    (sp : MonsterSpawn) (h : PlannerInv walkable st) :
    PlannerInv walkable (processMonster walkable raceMap st sp) := by
  obtain ⟨hnd, hwk, hus⟩ := h
  rw [processMonster]
  cases raceMap.lookup sp.race with
  | none => exact ⟨hnd, hwk, hus⟩
  | some name =>
    simp only
    obtain ⟨c1, c2, c3, c4, c5⟩ := placeCells_spec walkable sp.amount sp.x sp.y
      sp.z monsterCandidates st.used [] (by simp [posOf]) (by simp [posOf])
      (by simp [posOf])
    by_cases hemp : (placeCells walkable sp.amount sp.x sp.y sp.z
        monsterCandidates st.used []).2.isEmpty
    · rw [if_pos hemp]
      exact ⟨hnd, hwk, fun p hp => c1 p (hus p hp)⟩
    · rw [if_neg hemp]
      refine ⟨?_, ?_, ?_⟩
      · simp only [allPositions_append]
        rw [List.nodup_append]
        have hreg : allPositions [⟨false, name, (sp.x, sp.y, sp.z),
            (placeCells walkable sp.amount sp.x sp.y sp.z monsterCandidates
              st.used []).2⟩] =
            posOf sp.x sp.y sp.z (placeCells walkable sp.amount sp.x sp.y
              sp.z monsterCandidates st.used []).2 := by
          simp [allPositions, regionPositions, posOf]
        rw [hreg]
        refine ⟨hnd, c2, ?_⟩
        intro p hp hq
        rcases c5 p hq with h5 | h5
        · simp [posOf] at h5
        · exact h5 (hus p hp)
      · intro p hp
        simp only [allPositions_append] at hp
        rcases List.mem_append.1 hp with hp | hp
        · exact hwk p hp
        · have : p ∈ posOf sp.x sp.y sp.z (placeCells walkable sp.amount sp.x
              sp.y sp.z monsterCandidates st.used []).2 := by
            simpa [allPositions, regionPositions, posOf] using hp
          exact c3 p this
      · intro p hp
        simp only [allPositions_append] at hp
        rcases List.mem_append.1 hp with hp | hp
        · exact c1 p (hus p hp)
        · have : p ∈ posOf sp.x sp.y sp.z (placeCells walkable sp.amount sp.x
              sp.y sp.z monsterCandidates st.used []).2 := by
            simpa [allPositions, regionPositions, posOf] using hp
          exact c4 p this

theorem processNpc_inv (walkable : List Pos) (st : PlacementState)
    (npc : NpcSpawn) (h : PlannerInv walkable st) :
    PlannerInv walkable (processNpc walkable st npc) := by
  obtain ⟨hnd, hwk, hus⟩ := h
  rw [processNpc]
  cases hfind : npcCandidates.find? (fun d =>
      let center : Pos := (npc.x + d.1, npc.y + d.2, npc.z)
      decide (center ∉ st.centers ∧ center ∈ walkable ∧
        center ∉ st.used)) with
  | none => exact ⟨hnd, hwk, hus⟩
  | some d =>
    have hcond := List.find?_some hfind
    simp only [decide_eq_true_eq] at hcond
    obtain ⟨-, hcw, hcu⟩ := hcond
    simp only
    have hreg : allPositions [⟨true, npc.name,
        (npc.x + d.1, npc.y + d.2, npc.z), [(0, 0)]⟩] =
        [(npc.x + d.1, npc.y + d.2, npc.z)] := by
      simp [allPositions, regionPositions]
    refine ⟨?_, ?_, ?_⟩
    · rw [allPositions_append, List.nodup_append, hreg]
      refine ⟨hnd, List.nodup_singleton _, ?_⟩
      intro p hp hq
      rw [List.mem_singleton] at hq
      exact hcu (hq ▸ hus p hp)
    · intro p hp
      rw [allPositions_append, hreg] at hp
      rcases List.mem_append.1 hp with hp | hp
      · exact hwk p hp
      · rw [List.mem_singleton.1 hp]
        exact hcw
    · intro p hp
      rw [allPositions_append, hreg] at hp
      rcases List.mem_append.1 hp with hp | hp
      · exact List.mem_cons_of_mem _ (hus p hp)
      · rw [List.mem_singleton.1 hp]
        exact List.mem_cons_self _ _

theorem foldl_monster_inv (walkable : List Pos)
    (raceMap : List (Int × String)) (monsters : List MonsterSpawn) :
    ∀ st, PlannerInv walkable st →
      PlannerInv walkable
        (monsters.foldl (processMonster walkable raceMap) st) := by
  induction monsters with
  | nil => exact fun st h => h
  | cons sp rest ih =>
    intro st h
    exact ih _ (processMonster_inv walkable raceMap st sp h)

theorem foldl_npc_inv (walkable : List Pos) (npcs : List NpcSpawn) :
    ∀ st, PlannerInv walkable st →
      PlannerInv walkable (npcs.foldl (processNpc walkable) st) := by
  induction npcs with
  | nil => exact fun st h => h
  | cons npc rest ih =>
    intro st h
    exact ih _ (processNpc_inv walkable st npc h)

/-- **C5.** Across all spawn regions (monsters and NPCs), the placed
creature positions `(center_x + Δx, center_y + Δy, z)` contain no
duplicates, and every placed position is in the walkable tile set built
from the sectors (tiles with at least one item). -/
theorem placement_uniqueness_spec
    (sectors : List ((Int × Int × Int) × List SecTile))
    (raceMap : List (Int × String)) (monsters : List MonsterSpawn)
    (npcs : List NpcSpawn) :
    (allPositions (generate_spawns sectors raceMap monsters npcs)).Nodup ∧
    ∀ p ∈ allPositions (generate_spawns sectors raceMap monsters npcs),
      p ∈ load_walkable_tiles_from_sectors sectors := by
  have hinit : PlannerInv (load_walkable_tiles_from_sectors sectors)
      ⟨[], [], []⟩ := by
    refine ⟨?_, ?_, ?_⟩ <;> simp [allPositions]
  have h1 := foldl_monster_inv (load_walkable_tiles_from_sectors sectors)
    raceMap monsters _ hinit
  have h2 := foldl_npc_inv (load_walkable_tiles_from_sectors sectors)
    npcs _ h1
  exact ⟨h2.1, h2.2.1⟩

/-- Witness for C5 at a concrete two-tile map with two colliding monster
spawn lines. -/
def spawnSectors : List ((Int × Int × Int) × List SecTile) :=
  [((0, 0, 0), [⟨0, 0, 0, [demoItem 100]⟩, ⟨1, 0, 0, [demoItem 100]⟩])]

def dupMonsters : List MonsterSpawn :=
  [⟨1, 0, 0, 0, 1, 1, 60⟩, ⟨1, 0, 0, 0, 1, 1, 60⟩]

def ratMap : List (Int × String) := [(1, "mon-rat")]

theorem placement_uniqueness_spec_witness :
    (allPositions (generate_spawns spawnSectors ratMap dupMonsters [])).Nodup ∧
    ∀ p ∈ allPositions (generate_spawns spawnSectors ratMap dupMonsters []),
      p ∈ load_walkable_tiles_from_sectors spawnSectors :=
  placement_uniqueness_spec spawnSectors ratMap dupMonsters []

/-- **C6 counterexample.** Two monster.db lines with the same declared
center are both emitted as spawn regions carrying that same center: the
planner records monster centers (line 1356) but never checks them against
each other.  On this two-walkable-tile input the emitted center list is
`[(0,0,0), (0,0,0)]`. -/
theorem spawn_center_counterexample :
    (generate_spawns spawnSectors ratMap dupMonsters []).map
      SpawnRegionOut.center = [(0, 0, 0), (0, 0, 0)] ∧
    ¬ ((generate_spawns spawnSectors ratMap dupMonsters []).map
      SpawnRegionOut.center).Nodup := by
  refine ⟨?_, ?_⟩ <;> decide

/-- Centers of the emitted NPC regions. -/
def npcCentersOf (rs : List SpawnRegionOut) : List Pos :=
  (rs.filter fun r => r.isNpc).map SpawnRegionOut.center

/-- Centers of the emitted monster regions. -/
def monCentersOf (rs : List SpawnRegionOut) : List Pos :=
  (rs.filter fun r => !r.isNpc).map SpawnRegionOut.center

/-- Monster-phase invariant: only monster regions so far, every emitted
center recorded in the global center set. -/
def MonPhaseInv (st : PlacementState) : Prop :=
  (∀ r ∈ st.regions, r.isNpc = false) ∧
  (∀ r ∈ st.regions, r.center ∈ st.centers)

theorem processMonster_moninv (walkable : List Pos)
    (raceMap : List (Int × String)) (st : PlacementState)
    (sp : MonsterSpawn) (h : MonPhaseInv st) :
    MonPhaseInv (processMonster walkable raceMap st sp) := by
  obtain ⟨hmon, hcen⟩ := h
  rw [processMonster]
  cases raceMap.lookup sp.race with
  | none => exact ⟨hmon, hcen⟩
  | some name =>
    simp only
    by_cases hemp : (placeCells walkable sp.amount sp.x sp.y sp.z
        monsterCandidates st.used []).2.isEmpty
    · rw [if_pos hemp]
      exact ⟨hmon, fun r hr => List.mem_cons_of_mem _ (hcen r hr)⟩
    · rw [if_neg hemp]
      constructor
      · intro r hr
        rcases List.mem_append.1 hr with hr | hr
        · exact hmon r hr
        · rw [List.mem_singleton.1 hr]
      · intro r hr
        rcases List.mem_append.1 hr with hr | hr
        · exact List.mem_cons_of_mem _ (hcen r hr)
        · rw [List.mem_singleton.1 hr]
          exact List.mem_cons_self _ _

/-- NPC-phase invariant: every emitted center is recorded, NPC centers are
pairwise distinct and disjoint from monster centers. -/
def NpcPhaseInv (st : PlacementState) : Prop :=
  (∀ r ∈ st.regions, r.center ∈ st.centers) ∧
  (npcCentersOf st.regions).Nodup ∧
  (∀ c ∈ npcCentersOf st.regions, c ∉ monCentersOf st.regions)

theorem monPhase_to_npcPhase (st : PlacementState) (h : MonPhaseInv st) :
    NpcPhaseInv st := by
  obtain ⟨hmon, hcen⟩ := h
  have hempty : npcCentersOf st.regions = [] := by
    rw [npcCentersOf, List.filter_eq_nil_iff.2]
    · rfl
    · intro r hr
      simp [hmon r hr]
  exact ⟨hcen, by rw [hempty]; exact List.nodup_nil,
    by rw [hempty]; intro c hc; cases hc⟩

theorem center_not_in_regions (st : PlacementState) (c : Pos)
    (hcen : ∀ r ∈ st.regions, r.center ∈ st.centers) (hc : c ∉ st.centers) :
    ∀ r ∈ st.regions, r.center ≠ c := by
  intro r hr heq
  exact hc (heq ▸ hcen r hr)

theorem processNpc_npcinv (walkable : List Pos) (st : PlacementState)
    (npc : NpcSpawn) (h : NpcPhaseInv st) :
    NpcPhaseInv (processNpc walkable st npc) := by
  obtain ⟨hcen, hnod, hdis⟩ := h
  rw [processNpc]
  cases hfind : npcCandidates.find? (fun d =>
      let center : Pos := (npc.x + d.1, npc.y + d.2, npc.z)
      decide (center ∉ st.centers ∧ center ∈ walkable ∧
        center ∉ st.used)) with
  | none => exact ⟨hcen, hnod, hdis⟩
  | some d =>
    have hcond := List.find?_some hfind
    simp only [decide_eq_true_eq] at hcond
    obtain ⟨hcc, -, -⟩ := hcond
    have hfresh := center_not_in_regions st _ hcen hcc
    simp only
    have hnpcC : npcCentersOf (st.regions ++ [⟨true, npc.name,
        (npc.x + d.1, npc.y + d.2, npc.z), [(0, 0)]⟩]) =
        npcCentersOf st.regions ++ [(npc.x + d.1, npc.y + d.2, npc.z)] := by
      simp [npcCentersOf, List.filter_append]
    have hmonC : monCentersOf (st.regions ++ [⟨true, npc.name,
        (npc.x + d.1, npc.y + d.2, npc.z), [(0, 0)]⟩]) =
        monCentersOf st.regions := by
      simp [monCentersOf, List.filter_append]
    have hnotnpc : (npc.x + d.1, npc.y + d.2, npc.z) ∉
        npcCentersOf st.regions := by
      intro hmem
      obtain ⟨r, hr, hrc⟩ := List.mem_map.1 hmem
      exact hfresh r (List.mem_filter.1 hr).1 hrc
    have hnotmon : (npc.x + d.1, npc.y + d.2, npc.z) ∉
        monCentersOf st.regions := by
      intro hmem
      obtain ⟨r, hr, hrc⟩ := List.mem_map.1 hmem
      exact hfresh r (List.mem_filter.1 hr).1 hrc
    refine ⟨?_, ?_, ?_⟩
    · intro r hr
      rcases List.mem_append.1 hr with hr | hr
      · exact List.mem_cons_of_mem _ (hcen r hr)
      · rw [List.mem_singleton.1 hr]
        exact List.mem_cons_self _ _
    · rw [hnpcC, List.nodup_append]
      exact ⟨hnod, List.nodup_singleton _,
        fun c hc hq => hnotnpc (List.mem_singleton.1 hq ▸ hc)⟩
    · intro c hc
      rw [hnpcC] at hc
      rw [hmonC]
      rcases List.mem_append.1 hc with hc | hc
      · exact hdis c hc
      · rw [List.mem_singleton.1 hc]
        exact hnotmon

theorem foldl_monster_moninv (walkable : List Pos)
    (raceMap : List (Int × String)) (monsters : List MonsterSpawn) :
    ∀ st, MonPhaseInv st →
      MonPhaseInv (monsters.foldl (processMonster walkable raceMap) st) := by
  induction monsters with
  | nil => exact fun st h => h
  | cons sp rest ih =>
    intro st h
    exact ih _ (processMonster_moninv walkable raceMap st sp h)

theorem foldl_npc_npcinv (walkable : List Pos) (npcs : List NpcSpawn) :
    ∀ st, NpcPhaseInv st →
      NpcPhaseInv (npcs.foldl (processNpc walkable) st) := by
  induction npcs with
  | nil => exact fun st h => h
  | cons npc rest ih =>
    intro st h
    exact ih _ (processNpc_npcinv walkable st npc h)

/-- **C6 (amended).** Monster spawn regions may share centers (they are
recorded but never compared); among the emitted regions, no two NPC
regions share a center and no NPC region shares a center with any monster
region — the center-uniqueness search applies only to NPC spawns. -/
theorem npc_center_distinct_amended
    (sectors : List ((Int × Int × Int) × List SecTile))
    (raceMap : List (Int × String)) (monsters : List MonsterSpawn)
    (npcs : List NpcSpawn) :
    (npcCentersOf (generate_spawns sectors raceMap monsters npcs)).Nodup ∧
    ∀ c ∈ npcCentersOf (generate_spawns sectors raceMap monsters npcs),
      c ∉ monCentersOf (generate_spawns sectors raceMap monsters npcs) := by
  have hinit : MonPhaseInv ⟨[], [], []⟩ := by
    constructor <;> intro r hr <;> cases hr
  have h1 := foldl_monster_moninv
    (load_walkable_tiles_from_sectors sectors) raceMap monsters _ hinit
  have h2 := foldl_npc_npcinv (load_walkable_tiles_from_sectors sectors)
    npcs _ (monPhase_to_npcPhase _ h1)
  exact ⟨h2.2.1, h2.2.2⟩

/-- A single NPC colliding with the monster center, for the C6 witness. -/
def oneMonster : List MonsterSpawn := [⟨1, 0, 0, 0, 1, 1, 60⟩]

def oneNpc : List NpcSpawn := [⟨"npc-frans", 0, 0, 0, 3⟩]

theorem npc_center_distinct_amended_witness :
    (npcCentersOf (generate_spawns spawnSectors ratMap oneMonster
      oneNpc)).Nodup ∧
    ∀ c ∈ npcCentersOf (generate_spawns spawnSectors ratMap oneMonster
      oneNpc),
      c ∉ monCentersOf (generate_spawns spawnSectors ratMap oneMonster
        oneNpc) :=
  npc_center_distinct_amended spawnSectors ratMap oneMonster oneNpc

/-! ### OTBM → sector inverse converter (otbm_to_sec.py) -/

/-- `OTBM_HOUSETILE = 10` of the inverse converter (otbm_to_sec.py line
18); the forward map writer uses tag 14 for house tiles. -/
def INV_OTBM_HOUSETILE : Int := 10

/-- `OTBM_ATTR_ITEM = 0x09` (otbm_to_sec.py line 19). -/
def INV_OTBM_ATTR_ITEM : Int := 9

/-- `read_uint16_escape` (otbm_to_sec.py lines 32-40): two escaped byte
reads, little-endian (`b1 | (b2 << 8)`; written as `b1 + 256 * b2`, equal
for byte values). -/
def read_uint16_escape (data : List Int) (pos : Nat) : Option Int × Nat :=
  match read_byte_escape data pos with
  | (none, p) => (none, p)
  | (some b1, p1) =>
    match read_byte_escape data p1 with
    | (none, p) => (none, p)
    | (some b2, p2) => (some (b1 + 256 * b2), p2)

/-- `get_valid_type_id` (otbm_to_sec.py lines 97-106): ids not in the
objects.srv set are dropped (`None`). -/
def get_valid_type_id (valid : List Int) (t : Option Int) : Option Int :=
  t.bind fun v => if v ∈ valid then some v else none

/-- The ground-peeking scan of the tile branch (otbm_to_sec.py lines
148-162): skip escape pairs, stop at any node marker, read and validate a
u16 after an `OTBM_ATTR_ITEM` byte.  Fueled: the scan position advances on
every iteration, so `data.length` fuel always suffices (the zero-fuel
default is unreachable when called with that much fuel). -/
def peekGround (valid : List Int) (data : List Int) :
    Nat → Nat → Option Int
  | 0, _ => none
  | fuel + 1, j =>
    if j < data.length then
      let b := data.getD j 0
      if b = NODE_ESC then peekGround valid data fuel (j + 2)
      else if b = NODE_INIT ∨ b = NODE_TERM then none
      else if b = INV_OTBM_ATTR_ITEM then
        get_valid_type_id valid (read_uint16_escape data (j + 1)).1
      else peekGround valid data fuel (j + 1)
    else none

/-- One open tile of the reader's `tile_stack` (otbm_to_sec.py line 164):
`(depth, sx, sy, z, lx, ly, ground_id, items)`. -/
structure InvTile where
  depth : Int
  sx : Int
  sy : Int
  z : Int
  lx : Int
  ly : Int
  ground : Option Int
  items : List Int
  deriving DecidableEq

/-- The whole state of the reader loop of `convert_otbm_to_secs`
(otbm_to_sec.py lines 82-94): read position, node depth, current tile
area, open-tile stack (top at the head), and the emitted sector records
(the flattened `buckets`, in append order). -/
structure InvState where
  i : Nat
  depth : Int
  current_area : Option (Int × Int × Int)
  tile_stack : List InvTile
  buckets : List ((Int × Int × Int) × (Int × Int × List Int))
  deriving DecidableEq

/-- One iteration of the reader loop (otbm_to_sec.py lines 108-194).
0xFD skips the next byte; 0xFE opens a node and dispatches on the raw tag
byte (tile areas set the current area; tags 5 and 10 with a current area
push a tile, peeking for a ground item; tag 6 appends a validated item id
to the enclosing open tile; all other tags, 14 included, do nothing);
0xFF pops the matching open tile (emitting it when it has contents) and
decrements the depth unconditionally; other bytes are skipped.
A truncated header read would raise in Python (`None` arithmetic); the
`getD 0` defaults are unreachable for the streams considered here. -/
def invStep (valid : List Int) (data : List Int) (st : InvState) : InvState :=
  let b := data.getD st.i 0
  if b = NODE_ESC then { st with i := st.i + 2 }
  else if b = NODE_INIT then
    let depth := st.depth + 1
    let i := st.i + 1
    if i ≥ data.length then { st with depth := depth, i := i }
    else
      let node_type := data.getD i 0
      let i := i + 1
      if node_type = OTBM_TILE_AREA then
        let r1 := read_uint16_escape data i
        let r2 := read_uint16_escape data r1.2
        let r3 := read_byte_escape data r2.2
        { st with
          depth := depth
          i := r3.2
          current_area := some (r1.1.getD 0, r2.1.getD 0, r3.1.getD 0) }
      else if (node_type = OTBM_TILE ∨ node_type = INV_OTBM_HOUSETILE) ∧
          st.current_area.isSome then
        let r1 := read_byte_escape data i
        let r2 := read_byte_escape data r1.2
        let area := st.current_area.getD (0, 0, 0)
        let abs_x := area.1 + r1.1.getD 0
        let abs_y := area.2.1 + r2.1.getD 0
        let sx := abs_x.fdiv 32
        let sy := abs_y.fdiv 32
        let lx := abs_x - sx * 32
        let ly := abs_y - sy * 32
        let ground := peekGround valid data data.length r2.2
        { st with
          depth := depth
          i := r2.2
          tile_stack :=
            ⟨depth, sx, sy, area.2.2, lx, ly, ground, []⟩ :: st.tile_stack }
      else if node_type = OTBM_ITEM then
        let r := read_uint16_escape data i
        let newStack :=
          match st.tile_stack with
          | [] => []
          | top :: rest =>
            if depth > top.depth then
              match get_valid_type_id valid r.1 with
              | some vid =>
                if vid ≠ 0 then
                  { top with items := top.items ++ [vid] } :: rest
                else top :: rest
              | none => top :: rest
            else top :: rest
        { st with depth := depth, i := r.2, tile_stack := newStack }
      else { st with depth := depth, i := i }
  else if b = NODE_TERM then
    match st.tile_stack with
    | top :: rest =>
      if st.depth = top.depth then
        let contents :=
          match top.ground with
          | some g => if g ≠ 0 then g :: top.items else top.items
          | none => top.items
        if contents.isEmpty then
          { st with depth := st.depth - 1, i := st.i + 1, tile_stack := rest }
        else
          { st with
            depth := st.depth - 1
            i := st.i + 1
            tile_stack := rest
            buckets := st.buckets ++
              [((top.sx, top.sy, top.z), (top.lx, top.ly, contents))] }
      else { st with depth := st.depth - 1, i := st.i + 1 }
    | [] => { st with depth := st.depth - 1, i := st.i + 1 }
  else { st with i := st.i + 1 }

/-- The `while i < len(data)` loop, fueled (every step advances `i`, so
`data.length` steps always suffice). -/
def invRun (valid : List Int) (data : List Int) :
    Nat → InvState → InvState
  | 0, st => st
  | fuel + 1, st =>
    if st.i < data.length then invRun valid data fuel (invStep valid data st)
    else st

/-- `convert_otbm_to_secs` (otbm_to_sec.py lines 64-227), reduced to the
sector records it writes: scan from offset 4 and return the flattened
buckets `((sx, sy, z), (lx, ly, contents))` in append order. -/
def convert_otbm_to_secs (valid : List Int) (data : List Int) :
    List ((Int × Int × Int) × (Int × Int × List Int)) :=
  (invRun valid data data.length ⟨4, 0, none, [], []⟩).buckets

/-- **C8 counterexample.** The inverse reader has no failure channel: a
0xFD as the last byte of the stream is returned as the literal byte 0xFD
(not a BadEscape error); a 0xFF with no open node is consumed, the depth
counter just goes to -1 and conversion returns its buckets (no
UnbalancedClose); a stream truncated right after a 0xFE also returns
normally (no BadFraming). -/
theorem reader_no_failure_counterexample :
    read_byte_escape [253] 0 = (some 253, 1) ∧
    convert_otbm_to_secs [] [79, 84, 66, 77, 255] = [] ∧
    (invRun [] [79, 84, 66, 77, 255] 5 ⟨4, 0, none, [], []⟩).depth = -1 ∧
    convert_otbm_to_secs [] [79, 84, 66, 77, 254] = [] := by
  refine ⟨?_, ?_, ?_, ?_⟩ <;> decide

/-- **C8 (amended).** The node-tree reader is total and error-tolerant:
at end of stream `read_byte_escape` returns `none` and the scan stops; a
0xFD in final position is returned as the literal byte 0xFD; and a 0xFF
with no open tile node merely decrements the depth counter and moves on.
No BadFraming / UnbalancedClose / BadEscape failure exists in the code. -/
theorem reader_error_tolerance_amended :
    (∀ (data : List Int) (pos : Nat), pos ≥ data.length →
        read_byte_escape data pos = (none, pos)) ∧
    (∀ (data : List Int) (pos : Nat), pos + 1 = data.length →
        data.getD pos 0 = NODE_ESC →
        read_byte_escape data pos = (some NODE_ESC, pos + 1)) ∧
    (∀ (valid data : List Int) (st : InvState),
        data.getD st.i 0 = NODE_TERM → st.tile_stack = [] →
        invStep valid data st =
          { st with depth := st.depth - 1, i := st.i + 1 }) := by
  refine ⟨?_, ?_, ?_⟩
  · intro data pos h
    rw [read_byte_escape, if_pos h]
  · intro data pos hlen h
    have h1 : ¬ pos ≥ data.length := by omega
    have h2 : ¬ (data.getD pos 0 = NODE_ESC ∧ pos + 1 < data.length) := by
      rintro ⟨-, hc⟩
      omega
    rw [read_byte_escape, if_neg h1, if_neg h2, h]
  · intro valid data st hb hstack
    rw [invStep, hb, if_neg (by norm_num [NODE_TERM, NODE_ESC]),
      if_neg (by norm_num [NODE_TERM, NODE_INIT]), if_pos rfl, hstack]

/-- Witness for the amended C8. -/
theorem reader_error_tolerance_amended_witness :
    read_byte_escape [7] 2 = (none, 2) ∧
    read_byte_escape [7, 253] 1 = (some NODE_ESC, 2) ∧
    invStep [] [255] ⟨0, 0, none, [], []⟩ = ⟨1, -1, none, [], []⟩ :=
  ⟨reader_error_tolerance_amended.1 [7] 2 (by decide),
   reader_error_tolerance_amended.2.1 [7, 253] 1 (by decide) (by decide),
   reader_error_tolerance_amended.2.2 [] [255] ⟨0, 0, none, [], []⟩
     (by decide) rfl⟩

/-- The house tile the forward writer emits for the C10 input: local
(1, 0), one item of id 101, house id 1. -/
def houseTileRec : TileRecord := ⟨1, 0, [demoItem 101], 0, some 1⟩

/-- Two tiles in one sector: a plain tile (0,0) with item 100 and a house
tile (1,0) with item 101. -/
def houseDemoSectors : List ((Int × Int × Int) × List SecTile) :=
  [((0, 0, 0), [⟨0, 0, 0, [demoItem 100]⟩, ⟨1, 0, 0, [demoItem 101]⟩])]

def houseDemoPositions : List ((Int × Int × Int) × Int) := [((1, 0, 0), 1)]

/-- The forward OTBM bytes of that map. -/
def houseDemoBytes : List Int :=
  convert_map_to_otbm houseDemoSectors [109] [] houseDemoPositions []

/-- **C10.** The inverse converter recognizes only tags 5 and 10 as tiles:
a node opened with tag 14 — the HouseTile tag the forward writer emits —
changes neither the tile stack nor the emitted buckets, and item nodes not
enclosed by a recognized tile are dropped.  Concretely, the forward output
of a map with a house tile holding item 101 (valid in the catalog)
contains that house-tile node verbatim, yet the inverse recovers only the
plain tile with item 100: item 101 is absent from the sector records. -/
theorem housetile_tag_mismatch_spec :
    (∀ (valid data : List Int) (st : InvState),
        st.i + 1 < data.length → data.getD st.i 0 = NODE_INIT →
        data.getD (st.i + 1) 0 = OTBM_HOUSETILE →
        (invStep valid data st).tile_stack = st.tile_stack ∧
        (invStep valid data st).buckets = st.buckets) ∧
    (writeTile [] houseTileRec).IsInfix houseDemoBytes ∧
    convert_otbm_to_secs [100, 101] houseDemoBytes =
      [((0, 0, 0), (0, 0, [100]))] := by
  refine ⟨?_, ?_, ?_⟩
  · intro valid data st hlen hb ht
    rw [invStep, hb, if_neg (by norm_num [NODE_INIT, NODE_ESC]), if_pos rfl,
      if_neg (by omega), ht]
    rw [if_neg (by norm_num [OTBM_HOUSETILE, OTBM_TILE_AREA]),
      if_neg (by rintro ⟨h | h, -⟩ <;>
        norm_num [OTBM_HOUSETILE, OTBM_TILE, INV_OTBM_HOUSETILE] at h),
      if_neg (by norm_num [OTBM_HOUSETILE, OTBM_ITEM])]
    exact ⟨rfl, rfl⟩
  · decide
  · decide

/-- Witness for C10 at a concrete two-byte tag-14 stream. -/
theorem housetile_tag_mismatch_spec_witness :
    ((invStep [] [254, 14] ⟨0, 5, none, [], []⟩).tile_stack =
        (⟨0, 5, none, [], []⟩ : InvState).tile_stack ∧
      (invStep [] [254, 14] ⟨0, 5, none, [], []⟩).buckets =
        (⟨0, 5, none, [], []⟩ : InvState).buckets) ∧
    (writeTile [] houseTileRec).IsInfix houseDemoBytes ∧
    convert_otbm_to_secs [100, 101] houseDemoBytes =
      [((0, 0, 0), (0, 0, [100]))] :=
  ⟨housetile_tag_mismatch_spec.1 [] [254, 14] ⟨0, 5, none, [], []⟩
      (by decide) (by decide) (by decide),
   housetile_tag_mismatch_spec.2.1, housetile_tag_mismatch_spec.2.2⟩

end OtbmSec
